import Mathlib

/-!
Verification of the gzip framing layer of `src/gz/bufread.rs` (flate2):
the resumable header parser `read_gz_header2`, the pull-style `GzEncoder`,
and the member state machine of `GzDecoder` / `MultiGzDecoder`.

Bytes are modelled as `Nat` values below 256.  A pull-style reader is a
script of events: a chunk of bytes (a read delivering zero bytes models
"read returned 0", i.e. end of input at that point) or an I/O error.
External collaborators that the spec declares out of scope (the DEFLATE
engine, the CRC-32 wrapper, the header builder) are modelled from the
spec, as noted on the corresponding definitions.
-/

namespace Flate2

/-- Error kinds surfaced by the codec (§7 of the spec plus a fuel marker
for the executable drivers, which is never produced on the runs the
theorems are about). -/
inductive IOError
  | wouldBlock
  | unexpectedEof
  | invalidHeader
  | corrupt
  | other
  | fuelOut
  | custom (n : Nat)
deriving DecidableEq, Repr

/-- One response of the underlying reader: a chunk of bytes, or an error. -/
inductive RdEvt
  | data (chunk : List Nat)
  | ioerr (e : IOError)
deriving DecidableEq, Repr

/-- A pull-style reader: the list of responses it will give.  An empty
script means end of input (every read returns 0 bytes). -/
abbrev Reader := List RdEvt

/-- `read(&mut buf)` with `buf.len() = cap`: deliver at most `cap` bytes of
the next chunk (bytes are reduced mod 256, as they are `u8` on the Rust
side), pushing back the remainder; an error event is consumed and
surfaced. -/
def Reader.read : Reader → Nat → Except IOError (List Nat) × Reader
  | [], _ => (.ok [], [])
  | .data c :: rest, cap =>
    let t := (c.take cap).map (· % 256)
    let rem := c.drop cap
    (.ok t, if rem.isEmpty then rest else .data rem :: rest)
  | .ioerr e :: rest, _ => (.error e, rest)

/-- `fill_buf()`: peek the buffered input without consuming it. -/
def Reader.fillBuf : Reader → Except IOError (List Nat) × Reader
  | [] => (.ok [], [])
  | .data c :: rest => (.ok c, .data c :: rest)
  | .ioerr e :: rest => (.error e, rest)

def RdEvt.w : RdEvt → Nat
  | .data c => c.length + 1
  | .ioerr _ => 1

/-- Total size of a reader script; used to compute generous fuel bounds
for the executable drivers. -/
def Reader.weight (r : Reader) : Nat := (r.map RdEvt.w).sum

/-- Modelled from the spec: one bit-step of the standard CRC-32
(polynomial `0xEDB88320`) computed by the out-of-scope `crc32fast`
hasher. -/
def crcStep (c : Nat) : Nat := if c % 2 = 1 then (c / 2) ^^^ 0xEDB88320 else c / 2

/-- Modelled from the spec: feed one byte to the running CRC-32. -/
def crcByte (c b : Nat) : Nat :=
  crcStep (crcStep (crcStep (crcStep (crcStep (crcStep (crcStep (crcStep (c ^^^ (b % 256)))))))))

/-- Modelled from the spec: `Hasher::update` over a byte sequence. -/
def crcUpdate (c : Nat) (bs : List Nat) : Nat := bs.foldl crcByte c

/-- Internal state of a fresh `crc32fast::Hasher`. -/
def CRCINIT : Nat := 0xFFFFFFFF

/-- Modelled from the spec: `Hasher::finalize`. -/
def crcFinalize (c : Nat) : Nat := c ^^^ 0xFFFFFFFF

/-- CRC-32 of a byte sequence. -/
def crc32 (bs : List Nat) : Nat := crcFinalize (crcUpdate CRCINIT bs)

/-- Flag bits of the gzip header (RFC 1952). -/
def FTEXT : Nat := 1
def FHCRC : Nat := 2
def FEXTRA : Nat := 4
def FNAME : Nat := 8
def FCOMMENT : Nat := 16

/-- The parsed gzip header (`GzHeader` in `src/gz/mod.rs`, fields as used
by `bufread.rs`). -/
structure GzHeader where
  extra : Option (List Nat) := none
  filename : Option (List Nat) := none
  comment : Option (List Nat) := none
  operating_system : Nat := 0
  mtime : Nat := 0
deriving DecidableEq, Repr

/-- `GzHeader::default()`. -/
def GzHeader.default : GzHeader := {}

/-- The header parser's resumable state (`GzHeaderState`). -/
inductive GzHeaderState
  | header (pos : Nat) (buf : List Nat)
  | extraLen (pos : Nat) (buf : List Nat)
  | extra (pos : Nat)
  | fileName
  | comment
  | crc (calced : Nat) (pos : Nat) (buf : List Nat)
deriving DecidableEq, Repr

/-- Overwrite `buf[pos..pos+chunk.length]` with `chunk` (how a Rust read
into `&mut buf[pos..]` updates the buffer). -/
def writeAt (buf : List Nat) (pos : Nat) (chunk : List Nat) : List Nat :=
  buf.take pos ++ chunk ++ buf.drop (pos + chunk.length)

/-- Result of the NUL-terminated scan in the `FileName`/`Comment` arms. -/
structure NulOut where
  res : Except IOError Unit
  acc : List Nat
  r : Reader
deriving Repr

/-- The `for byte in r.by_ref().bytes()` loop of the `FileName` and
`Comment` arms: read single bytes, pushing them onto `acc`, until a NUL
byte or a 0-byte read (`Bytes` yields `None` at end of input, which exits
the loop just like a NUL does), or an error (surfaced with the bytes
pushed so far kept). -/
def readUntilNul : Nat → Reader → List Nat → NulOut
  | 0, r, acc => ⟨.error .fuelOut, acc, r⟩
  | fuel+1, r, acc =>
    match Reader.read r 1 with
    | (.ok [], r') => ⟨.ok (), acc, r'⟩
    | (.ok (b :: _), r') =>
      if b = 0 then ⟨.ok (), acc, r'⟩ else readUntilNul fuel r' (acc ++ [b])
    | (.error e, r') => ⟨.error e, acc, r'⟩

/-- Result record of `read_gz_header2`: the `io::Result<()>` together with
the final values of the by-ref arguments. -/
structure PR where
  res : Except IOError Unit
  r : Reader
  s : GzHeaderState
  h : GzHeader
  flag : Nat
  hasher : Nat
deriving Repr

/-- `read_gz_header2`, fuelled: each recursive call is one iteration of
the source's `loop`.  The fuel marker is never hit when the fuel is at
least `Reader.weight r + 16` (each iteration consumes input or advances
the state). -/
def parseHeaderF : Nat → Reader → GzHeaderState → GzHeader → Nat → Nat → PR
  | 0, r, s, h, flag, hasher => ⟨.error .fuelOut, r, s, h, flag, hasher⟩
  | fuel+1, r, s, h, flag, hasher =>
    match s with
    | .header pos buf =>
      if pos < buf.length then
        match Reader.read r (buf.length - pos) with
        | (.ok [], r') => ⟨.error .unexpectedEof, r', .header pos buf, h, flag, hasher⟩
        | (.ok chunk, r') =>
          parseHeaderF fuel r' (.header (pos + chunk.length) (writeAt buf pos chunk)) h flag hasher
        | (.error e, r') => ⟨.error e, r', .header pos buf, h, flag, hasher⟩
      else
        let hasher' := crcUpdate hasher buf
        if buf.getD 0 0 != 0x1f || buf.getD 1 0 != 0x8b then
          ⟨.error .invalidHeader, r, .header pos buf, h, flag, hasher'⟩
        else if buf.getD 2 0 != 8 then
          ⟨.error .invalidHeader, r, .header pos buf, h, flag, hasher'⟩
        else
          let flg := buf.getD 3 0
          let mtime := buf.getD 4 0 ||| (buf.getD 5 0 <<< 8) ||| (buf.getD 6 0 <<< 16) |||
            (buf.getD 7 0 <<< 24)
          let os := buf.getD 9 0
          parseHeaderF fuel r (.extraLen 0 [0, 0])
            { h with operating_system := os, mtime := mtime } flg hasher'
    | .extraLen pos buf =>
      if flag &&& FEXTRA == 0 then
        parseHeaderF fuel r .fileName h flag hasher
      else if pos < buf.length then
        match Reader.read r (buf.length - pos) with
        | (.ok [], r') => ⟨.error .unexpectedEof, r', .extraLen pos buf, h, flag, hasher⟩
        | (.ok chunk, r') =>
          parseHeaderF fuel r' (.extraLen (pos + chunk.length) (writeAt buf pos chunk)) h flag hasher
        | (.error e, r') => ⟨.error e, r', .extraLen pos buf, h, flag, hasher⟩
      else
        let hasher' := crcUpdate hasher buf
        let xlen := buf.getD 0 0 ||| (buf.getD 1 0 <<< 8)
        let h' := { h with extra := some (List.replicate xlen 0) }
        if xlen != 0 then parseHeaderF fuel r (.extra 0) h' flag hasher'
        else parseHeaderF fuel r .fileName h' flag hasher'
    | .extra pos =>
      match h.extra with
      | none =>
        -- unreachable through the public constructors: the source's
        -- `if let Some(extra)` arm would spin forever with `extra = None`
        ⟨.error .other, r, .extra pos, h, flag, hasher⟩
      | some ex =>
        if pos < ex.length then
          match Reader.read r (ex.length - pos) with
          | (.ok [], r') => ⟨.error .unexpectedEof, r', .extra pos, h, flag, hasher⟩
          | (.ok chunk, r') =>
            parseHeaderF fuel r' (.extra (pos + chunk.length))
              { h with extra := some (writeAt ex pos chunk) } flag hasher
          | (.error e, r') => ⟨.error e, r', .extra pos, h, flag, hasher⟩
        else
          -- NOTE: the source does not feed the extra bytes to the hasher
          parseHeaderF fuel r .fileName h flag hasher
    | .fileName =>
      if flag &&& FNAME == 0 then
        parseHeaderF fuel r .comment h flag hasher
      else
        match readUntilNul (Reader.weight r + 1) r (h.filename.getD []) with
        | ⟨.ok _, acc, r'⟩ =>
          parseHeaderF fuel r' .comment { h with filename := some acc } flag
            (crcUpdate (crcUpdate hasher acc) [0])
        | ⟨.error e, acc, r'⟩ =>
          ⟨.error e, r', .fileName, { h with filename := some acc }, flag, hasher⟩
    | .comment =>
      if flag &&& FCOMMENT == 0 then
        parseHeaderF fuel r (.crc (crcFinalize hasher % 65536) 0 [0, 0]) h flag hasher
      else
        match readUntilNul (Reader.weight r + 1) r (h.comment.getD []) with
        | ⟨.ok _, acc, r'⟩ =>
          parseHeaderF fuel r'
            (.crc (crcFinalize (crcUpdate (crcUpdate hasher acc) [0]) % 65536) 0 [0, 0])
            { h with comment := some acc } flag (crcUpdate (crcUpdate hasher acc) [0])
        | ⟨.error e, acc, r'⟩ =>
          ⟨.error e, r', .comment, { h with comment := some acc }, flag, hasher⟩
    | .crc calced pos buf =>
      if flag &&& FHCRC == 0 then
        ⟨.ok (), r, .crc calced pos buf, h, flag, hasher⟩
      else if pos < buf.length then
        match Reader.read r (buf.length - pos) with
        | (.ok [], r') => ⟨.error .unexpectedEof, r', .crc calced pos buf, h, flag, hasher⟩
        | (.ok chunk, r') =>
          parseHeaderF fuel r' (.crc calced (pos + chunk.length) (writeAt buf pos chunk)) h flag
            hasher
        | (.error e, r') => ⟨.error e, r', .crc calced pos buf, h, flag, hasher⟩
      else
        let stored := buf.getD 0 0 ||| (buf.getD 1 0 <<< 8)
        if calced != stored then ⟨.error .corrupt, r, .crc calced pos buf, h, flag, hasher⟩
        else ⟨.ok (), r, .crc calced pos buf, h, flag, hasher⟩

/-- Fuel that always suffices for `parseHeaderF`. -/
def parseFuel (r : Reader) : Nat := Reader.weight r + 16

/-- Initial header-parser state (`GzHeaderState::Header(0, [0; 10])`). -/
def initHeaderState : GzHeaderState := .header 0 (List.replicate 10 0)

/-- `read_gz_header`: run the parser from the initial state. -/
def read_gz_header (r : Reader) : Except IOError GzHeader × Reader :=
  let p := parseHeaderF (parseFuel r) r initHeaderState GzHeader.default 0 CRCINIT
  (p.res.map (fun _ => p.h), p.r)

/-- Little-endian encoding of the low 32 bits of `n` (how the source
emits `x as u8, (x >> 8) as u8, ...`). -/
def le32enc (n : Nat) : List Nat :=
  [n % 256, n / 256 % 256, n / 65536 % 256, n / 16777216 % 256]

/-- The `finish` helper (lines 308-319): little-endian decode of the
8-byte trailer into `(crc, amt)`. -/
def finish (buf : List Nat) : Nat × Nat :=
  (buf.getD 0 0 ||| (buf.getD 1 0 <<< 8) ||| (buf.getD 2 0 <<< 16) ||| (buf.getD 3 0 <<< 24),
   buf.getD 4 0 ||| (buf.getD 5 0 <<< 8) ||| (buf.getD 6 0 <<< 16) ||| (buf.getD 7 0 <<< 24))

/-- Modelled from the spec: the out-of-scope `CrcReader` wrapper on the
encoder side — a reader that CRC-32s and counts (mod 2^32) the bytes
pulled through it. -/
structure CrcReader where
  crc : Nat := CRCINIT
  amt : Nat := 0
  inner : Reader
deriving Repr

/-- Modelled from the spec: `CrcReader::read` updates the running CRC and
the byte count with every chunk successfully read. -/
def CrcReader.read (c : CrcReader) (cap : Nat) : Except IOError (List Nat) × CrcReader :=
  match Reader.read c.inner cap with
  | (.ok chunk, r') =>
    (.ok chunk,
     { crc := crcUpdate c.crc chunk, amt := (c.amt + chunk.length) % 4294967296, inner := r' })
  | (.error e, r') => (.error e, { c with inner := r' })

/-- `crc().sum()`. -/
def CrcReader.sum (c : CrcReader) : Nat := crcFinalize c.crc

/-- `crc().amount()`. -/
def CrcReader.amount (c : CrcReader) : Nat := c.amt

/-- Modelled from the spec: state of the black-box DEFLATE *encoder*
(byte-in/byte-out streaming codec).  The model emits blocks of source
bytes prefixed by a 4-byte little-endian length, then a zero-length
terminator block, then reports end of stream by returning 0 bytes. -/
inductive DefEnc
  | running
  | finished
deriving DecidableEq, Repr

/-- Modelled from the spec: one `read` call of the black-box DEFLATE
encoder, pulling from the CRC-counting source.  `lvl` is the compression
level, which the model ignores. -/
def storedEncRead (lvl : Nat) (st : DefEnc) (c : CrcReader) (cap : Nat) :
    Except IOError (List Nat) × DefEnc × CrcReader :=
  match st with
  | .finished => (.ok [], .finished, c)
  | .running =>
    if cap < 5 then (.ok [], .running, c)
    else
      match CrcReader.read c (cap - 4) with
      | (.error e, c') => (.error e, .running, c')
      | (.ok [], c') => (.ok (le32enc 0), .finished, c')
      | (.ok chunk, c') => (.ok (le32enc chunk.length ++ chunk), .running, c')

/-- The `GzEncoder` state, generic over the DEFLATE engine state `σ`
(the engine itself is an out-of-scope collaborator). -/
structure GzEncoder (σ : Type) where
  defl : σ
  crcr : CrcReader
  header : List Nat
  pos : Nat
  eof : Bool

/-- Modelled from the spec: the header builder's output for the default
configuration (magic, CM 8, flag 0, mtime 0, XFL 0, OS 255). -/
def mkHeaderBytes : List Nat := [0x1f, 0x8b, 8, 0, 0, 0, 0, 0, 0, 255]

/-- `GzEncoder::read_footer`: returns `(n, bytes written)` and the new
encoder state.  Once `pos == 8` it returns 0 forever. -/
def read_footer (e : GzEncoder σ) (cap : Nat) : (Nat × List Nat) × GzEncoder σ :=
  if e.pos == 8 then ((0, []), e)
  else
    let arr := le32enc (CrcReader.sum e.crcr) ++ le32enc (CrcReader.amount e.crcr)
    let n := min cap (arr.length - e.pos)
    ((n, (arr.drop e.pos).take n), { e with pos := e.pos + n })

/-- `GzEncoder::read` (lines 321-343), generic over the engine's `read`.
The result is `(n, bytes written into dst from offset 0)`; in the normal
paths `n` is the length of the written bytes. -/
def gzEncRead (engRead : σ → CrcReader → Nat → Except IOError (List Nat) × σ × CrcReader)
    (e : GzEncoder σ) (cap : Nat) : Except IOError (Nat × List Nat) × GzEncoder σ :=
  if e.eof then
    let (res, e') := read_footer e cap
    (.ok res, e')
  else if e.pos < e.header.length then
    let n := min cap (e.header.length - e.pos)
    let hdrOut := (e.header.drop e.pos).take n
    let e1 := { e with pos := e.pos + n }
    if n == cap then (.ok (n, hdrOut), e1)
    else
      match engRead e1.defl e1.crcr (cap - n) with
      | (.error err, s', c') => (.error err, { e1 with defl := s', crcr := c' })
      | (.ok [], s', c') =>
        let e2 := { e1 with defl := s', crcr := c', eof := true, pos := 0 }
        let (res, e3) := read_footer e2 (cap - n)
        (.ok (res.1, hdrOut ++ res.2), e3)
      | (.ok out, s', c') =>
        (.ok (n + out.length, hdrOut ++ out), { e1 with defl := s', crcr := c' })
  else
    match engRead e.defl e.crcr cap with
    | (.error err, s', c') => (.error err, { e with defl := s', crcr := c' })
    | (.ok [], s', c') =>
      let e2 := { e with defl := s', crcr := c', eof := true, pos := 0 }
      let (res, e3) := read_footer e2 cap
      (.ok res, e3)
    | (.ok out, s', c') => (.ok (out.length, out), { e with defl := s', crcr := c' })

/-- Driver: `read_to_end` on the encoder with a fixed buffer size `cap`
(stops at the first `Ok(0)`). -/
def encodeLoop (engRead : σ → CrcReader → Nat → Except IOError (List Nat) × σ × CrcReader)
    (cap : Nat) : Nat → GzEncoder σ → List Nat → Option (Except IOError (List Nat))
  | 0, _, _ => none
  | fuel+1, e, acc =>
    match gzEncRead engRead e cap with
    | (.ok (n, out), e') =>
      if n = 0 then some (.ok acc) else encodeLoop engRead cap fuel e' (acc ++ out.take n)
    | (.error err, _) => some (.error err)

/-- Encode a whole byte sequence `P` at level `lvl` through `GzEncoder`
with the modelled engine, reading to end of stream with a buffer large
enough to hold everything. -/
def encodeAll (lvl : Nat) (P : List Nat) : Option (Except IOError (List Nat)) :=
  let e0 : GzEncoder DefEnc :=
    { defl := .running, crcr := { inner := [.data P] }, header := mkHeaderBytes,
      pos := 0, eof := false }
  encodeLoop (storedEncRead lvl) (P.length + 300) 8 e0 []

/-- Modelled from the spec: state of the black-box DEFLATE *decoder*,
inverse of `storedEncRead`'s format.  `reset_data` returns to
`atBlock 0 [0,0,0,0]`; after the terminator block it returns 0 bytes
forever without consuming the trailer. -/
inductive InfSt
  | atBlock (pos : Nat) (buf : List Nat)
  | inBlock (k : Nat)
  | done
deriving DecidableEq, Repr

/-- Fresh DEFLATE decoder state. -/
def infInit : InfSt := .atBlock 0 [0, 0, 0, 0]

/-- Modelled from the spec: one `read` call of the black-box DEFLATE
decoder, fuelled internally (sufficient fuel is supplied by
`storedInfRead`). -/
def storedInfReadF : Nat → InfSt → Reader → Nat → Except IOError (List Nat) × InfSt × Reader
  | 0, s, r, _ => (.error .fuelOut, s, r)
  | fuel+1, s, r, cap =>
    match s with
    | .done => (.ok [], .done, r)
    | .atBlock pos buf =>
      if pos < buf.length then
        match Reader.read r (buf.length - pos) with
        | (.ok [], r') => (.ok [], .atBlock pos buf, r')
        | (.ok chunk, r') =>
          storedInfReadF fuel (.atBlock (pos + chunk.length) (writeAt buf pos chunk)) r' cap
        | (.error e, r') => (.error e, .atBlock pos buf, r')
      else
        let k := buf.getD 0 0 ||| (buf.getD 1 0 <<< 8) ||| (buf.getD 2 0 <<< 16) |||
          (buf.getD 3 0 <<< 24)
        if k == 0 then (.ok [], .done, r)
        else storedInfReadF fuel (.inBlock k) r cap
    | .inBlock k =>
      match Reader.read r (min cap k) with
      | (.ok [], r') => (.ok [], .inBlock k, r')
      | (.ok chunk, r') =>
        (.ok chunk, if chunk.length == k then infInit else .inBlock (k - chunk.length), r')
      | (.error e, r') => (.error e, .inBlock k, r')

/-- Modelled from the spec: `DeflateDecoder::read`. -/
def storedInfRead (s : InfSt) (r : Reader) (cap : Nat) :
    Except IOError (List Nat) × InfSt × Reader :=
  storedInfReadF (Reader.weight r + 8) s r cap

/-- Interface of the out-of-scope DEFLATE decoding engine: initial state,
a streaming `read` from the underlying reader, and `reset_data`. -/
structure InfEngine (σ : Type) where
  init : σ
  read : σ → Reader → Nat → Except IOError (List Nat) × σ × Reader
  reset : σ → σ

/-- The modelled engine instance. -/
def storedEngine : InfEngine InfSt :=
  { init := infInit, read := storedInfRead, reset := fun _ => infInit }

/-- Contents of the `GzState::Header` variant. -/
structure HdrParse where
  state : GzHeaderState
  flag : Nat
  hasher : Nat
deriving DecidableEq, Repr

/-- The member state machine (`GzState`). -/
inductive GzSt
  | header (p : HdrParse)
  | body
  | finished (pos : Nat) (buf : List Nat)
  | err (e : IOError)
  | end_
deriving DecidableEq, Repr

/-- The `GzDecoder` state, generic over the DEFLATE engine state `σ`.
`dcrc`/`damt` are the CRC-counting wrapper over the *decompressed* bytes;
`r` is the underlying reader (the DEFLATE decoder reads from it through
its `BufRead` interface and buffers nothing of its own). -/
structure GzDecoder (σ : Type) where
  inner : GzSt
  header : GzHeader
  dcrc : Nat
  damt : Nat
  dstate : σ
  r : Reader
  multi : Bool

/-- `GzDecoder::new`: eagerly parse the header; on error the decoder is
created in the `Err` state. -/
def GzDecoder.new (eng : InfEngine σ) (r : Reader) : GzDecoder σ :=
  let p := parseHeaderF (parseFuel r) r initHeaderState GzHeader.default 0 CRCINIT
  { inner := match p.res with | .error e => .err e | .ok _ => .body
    header := p.h, dcrc := CRCINIT, damt := 0, dstate := eng.init, r := p.r, multi := false }

/-- `GzDecoder::new2`: lazy construction, header parsing deferred. -/
def GzDecoder.new2 (eng : InfEngine σ) (r : Reader) : GzDecoder σ :=
  { inner := .header ⟨initHeaderState, 0, CRCINIT⟩, header := GzHeader.default,
    dcrc := CRCINIT, damt := 0, dstate := eng.init, r := r, multi := false }

/-- `multi(flag)`. -/
def GzDecoder.setMulti (d : GzDecoder σ) (flag : Bool) : GzDecoder σ := { d with multi := flag }

/-- `MultiGzDecoder::new`. -/
def MultiGzDecoder.new (eng : InfEngine σ) (r : Reader) : GzDecoder σ :=
  (GzDecoder.new eng r).setMulti true

/-- `GzDecoder::header()`: the parsed header, unless still parsing or in
the `Err` state. -/
def GzDecoder.headerOption (d : GzDecoder σ) : Option GzHeader :=
  match d.inner with
  | .err _ => none
  | .header _ => none
  | _ => some d.header

/-- Result of one iteration of the `loop` in `GzDecoder::read`:
either the `read` call returns, or the loop continues. -/
inductive StepRes (σ : Type)
  | ret (res : Except IOError (List Nat)) (d : GzDecoder σ)
  | cont (d : GzDecoder σ)

/-- One iteration of the `loop` of `GzDecoder::read` (lines 494-574),
including the `Next` transition at the bottom of the loop. -/
def decStep (eng : InfEngine σ) (d : GzDecoder σ) (cap : Nat) : StepRes σ :=
  match d.inner with
  | .header p =>
    let pr := parseHeaderF (parseFuel d.r) d.r p.state d.header p.flag p.hasher
    match pr.res with
    | .ok _ => .cont { d with inner := .body, header := pr.h, r := pr.r }
    | .error e =>
      if e == .wouldBlock then
        .ret (.error e)
          { d with inner := .header ⟨pr.s, pr.flag, pr.hasher⟩, header := pr.h, r := pr.r }
      else
        .ret (.error e) { d with inner := .end_, header := pr.h, r := pr.r }
  | .body =>
    if cap == 0 then .ret (.ok []) d
    else
      match eng.read d.dstate d.r cap with
      | (.ok [], s', r') =>
        .cont { d with inner := .finished 0 (List.replicate 8 0), dstate := s', r := r' }
      | (.ok chunk, s', r') =>
        .ret (.ok chunk)
          { d with
            dstate := s'
            r := r'
            dcrc := crcUpdate d.dcrc chunk
            damt := (d.damt + chunk.length) % 4294967296 }
      | (.error e, s', r') => .ret (.error e) { d with dstate := s', r := r' }
  | .finished pos buf =>
    if pos < buf.length then
      match Reader.read d.r (buf.length - pos) with
      | (.ok [], r') => .ret (.error .unexpectedEof) { d with inner := .end_, r := r' }
      | (.ok chunk, r') =>
        .cont { d with inner := .finished (pos + chunk.length) (writeAt buf pos chunk), r := r' }
      | (.error e, r') =>
        if e == .wouldBlock then .ret (.error e) { d with r := r' }
        else .ret (.error e) { d with inner := .end_, r := r' }
    else
      let ca := finish buf
      if ca.1 != crcFinalize d.dcrc then .ret (.error .corrupt) { d with inner := .end_ }
      else if ca.2 != d.damt then .ret (.error .corrupt) { d with inner := .end_ }
      else if !d.multi then .cont { d with inner := .end_ }
      else
        match Reader.fillBuf d.r with
        | (.ok bufc, r') =>
          if bufc.isEmpty then .cont { d with inner := .end_, r := r' }
          else
            .cont { d with
                    inner := .header ⟨initHeaderState, 0, CRCINIT⟩
                    header := GzHeader.default
                    dcrc := CRCINIT
                    damt := 0
                    dstate := eng.reset d.dstate
                    r := r' }
        | (.error e, r') =>
          if e == .wouldBlock then .ret (.error e) { d with r := r' }
          else .ret (.error e) { d with inner := .end_, r := r' }
  | .err e => .ret (.error e) { d with inner := .end_ }
  | .end_ => .ret (.ok []) d

/-- `GzDecoder::read`, fuelled: iterate `decStep` until it returns.
`none` marks fuel exhaustion (never hit with fuel
`8 * Reader.weight d.r + 64`). -/
def decReadF (eng : InfEngine σ) : Nat → GzDecoder σ → Nat → Option (Except IOError (List Nat) × GzDecoder σ)
  | 0, _, _ => none
  | fuel+1, d, cap =>
    match decStep eng d cap with
    | .ret res d' => some (res, d')
    | .cont d' => decReadF eng fuel d' cap

/-- Driver: `read_to_string`-style loop on the decoder with a fixed
buffer size `cap` (stops at the first `Ok(0)`). -/
def decodeLoop (eng : InfEngine σ) (cap : Nat) :
    Nat → GzDecoder σ → List Nat → Option (Except IOError (List Nat))
  | 0, _, _ => none
  | fuel+1, d, acc =>
    match decReadF eng (8 * Reader.weight d.r + 64) d cap with
    | none => none
    | some (.ok out, d') =>
      if out.isEmpty then some (.ok acc) else decodeLoop eng cap fuel d' (acc ++ out)
    | some (.error e, _) => some (.error e)

/-- Decode a whole byte stream `s` through `GzDecoder::new` with the
modelled engine, reading to end with a buffer large enough. -/
def decodeAll (s : List Nat) : Option (Except IOError (List Nat)) :=
  decodeLoop storedEngine (s.length + 64) 8 (GzDecoder.new storedEngine [.data s]) []

/-- Header parser states whose next action is a read into a partially
filled fixed-size buffer (in the context of the current header and flag
byte). -/
def fillingNow : GzHeaderState → GzHeader → Nat → Prop
  | .header pos buf, _, _ => pos < buf.length
  | .extraLen pos buf, _, flag => flag &&& FEXTRA ≠ 0 ∧ pos < buf.length
  | .extra pos, h, _ => ∃ ex, h.extra = some ex ∧ pos < ex.length
  | .crc _ pos buf, _, flag => flag &&& FHCRC ≠ 0 ∧ pos < buf.length
  | _, _, _ => False

/-- Fixed 10-byte header with FEXTRA and FHCRC set. -/
def c2FixedBytes : List Nat := [0x1f, 0x8b, 8, 6, 0, 0, 0, 0, 0, 255]

/-- HCRC value an RFC 1952 conforming producer stores for
`c2FixedBytes` + XLEN `[1,0]` + a 1-byte extra field `[170]`: low 16 bits
of the CRC-32 over all preceding header bytes, extra field included. -/
def c2RfcCrc : Nat := crc32 (c2FixedBytes ++ [1, 0, 170]) % 65536

/-- HCRC value matching what the source actually computes for the same
header: the CRC-32 skipping the extra-field payload. -/
def c2CodeCrc : Nat := crc32 (c2FixedBytes ++ [1, 0]) % 65536

/-- The RFC-conforming header (magic, CM, FLG=FEXTRA+FHCRC, mtime, XFL,
OS, XLEN=1, one extra byte, stored HCRC over every preceding byte). -/
def c2RfcInput : List Nat := c2FixedBytes ++ [1, 0, 170] ++ [c2RfcCrc % 256, c2RfcCrc / 256]

/-- The same header, but with the stored HCRC matching the source's
(extra-skipping) computation. -/
def c2CodeInput : List Nat := c2FixedBytes ++ [1, 0, 170] ++ [c2CodeCrc % 256, c2CodeCrc / 256]

/-- A well-formed single-member gzip stream (default header) whose body
decompresses to the single byte `97`, in the modelled block format. -/
def oneByteMember : List Nat :=
  [1, 0, 0, 0, 97] ++ [0, 0, 0, 0] ++ le32enc (crc32 [97]) ++ le32enc 1

/-- Reader whose underlying source fails with a transient error between
the header bytes and the body. -/
def c6Reader : Reader := [.data mkHeaderBytes, .ioerr (.custom 0), .data oneByteMember]

/-- A complete valid stream for the byte `97`. -/
def c7Stream : List Nat := mkHeaderBytes ++ oneByteMember

/-- Reader that reports would-block once, then delivers a full valid
stream. -/
def c7Reader : Reader := [.ioerr .wouldBlock, .data c7Stream]

/-! ### Helper lemmas -/

theorem map_mod_id {l : List Nat} (h : ∀ b ∈ l, b < 256) : l.map (· % 256) = l := by
  induction l with
  | nil => rfl
  | cons a t ih =>
    simp only [List.map_cons, List.cons.injEq]
    exact ⟨Nat.mod_eq_of_lt (h a (by simp)), ih fun b hb => h b (by simp [hb])⟩

theorem le32enc_map_mod (n : Nat) : (le32enc n).map (· % 256) = le32enc n := by
  simp [le32enc, Nat.mod_mod_of_dvd]

theorem le32enc_length (n : Nat) : (le32enc n).length = 4 := rfl

theorem isEmpty_append_cons (l : List α) (a : α) (t : List α) :
    (l ++ a :: t).isEmpty = false := by
  cases l <;> rfl

theorem writeAt_exact {buf chunk : List Nat} (h : buf.length = chunk.length) :
    writeAt buf 0 chunk = chunk := by
  simp [writeAt, List.drop_eq_nil_of_le, Nat.le_of_eq h]

theorem crcUpdate_append (c : Nat) (a b : List Nat) :
    crcUpdate c (a ++ b) = crcUpdate (crcUpdate c a) b := List.foldl_append ..

theorem crcStep_lt {c : Nat} (h : c < 4294967296) : crcStep c < 4294967296 := by
  unfold crcStep
  split
  · exact Nat.xor_lt_two_pow (n := 32) (by omega) (by norm_num)
  · omega

theorem crcByte_lt {c : Nat} (b : Nat) (h : c < 4294967296) : crcByte c b < 4294967296 := by
  unfold crcByte
  have h0 : c ^^^ b % 256 < 4294967296 := Nat.xor_lt_two_pow (n := 32) h (by omega)
  exact crcStep_lt (crcStep_lt (crcStep_lt (crcStep_lt (crcStep_lt (crcStep_lt (crcStep_lt
    (crcStep_lt h0)))))))

theorem crcUpdate_lt {c : Nat} (bs : List Nat) (h : c < 4294967296) :
    crcUpdate c bs < 4294967296 := by
  induction bs generalizing c with
  | nil => exact h
  | cons a t ih => exact ih (crcByte_lt a h)

theorem crcFinalize_lt {c : Nat} (h : c < 4294967296) : crcFinalize c < 4294967296 :=
  Nat.xor_lt_two_pow (n := 32) h (by norm_num)

theorem crc32_lt (bs : List Nat) : crc32 bs < 4294967296 :=
  crcFinalize_lt (crcUpdate_lt bs (by norm_num [CRCINIT]))

theorem le32_decode (n : Nat) :
    (n % 256) ||| ((n / 256 % 256) <<< 8) ||| ((n / 65536 % 256) <<< 16) |||
      ((n / 16777216 % 256) <<< 24) = n % 4294967296 := by
  apply Nat.eq_of_testBit_eq
  intro i
  have e1 : n / 256 = n >>> 8 := (Nat.shiftRight_eq_div_pow n 8).symm
  have e2 : n / 65536 = n >>> 16 := (Nat.shiftRight_eq_div_pow n 16).symm
  have e3 : n / 16777216 = n >>> 24 := (Nat.shiftRight_eq_div_pow n 24).symm
  rw [e1, e2, e3, show (256 : Nat) = 2 ^ 8 from rfl, show (4294967296 : Nat) = 2 ^ 32 from rfl]
  simp only [Nat.testBit_lor, Nat.testBit_shiftLeft, Nat.testBit_mod_two_pow,
    Nat.testBit_shiftRight, ge_iff_le]
  rcases Nat.lt_or_ge i 8 with h1 | h1
  · have n1 : ¬ (8 ≤ i) := by omega
    have n2 : ¬ (16 ≤ i) := by omega
    have n3 : ¬ (24 ≤ i) := by omega
    simp [h1, n1, n2, n3, show i < 32 by omega]
  · rcases Nat.lt_or_ge i 16 with h2 | h2
    · have key : 8 + (i - 8) = i := by omega
      simp [show ¬ (i < 8) by omega, h1, show ¬ (16 ≤ i) by omega, show ¬ (24 ≤ i) by omega,
        show i - 8 < 8 by omega, key, show i < 32 by omega]
    · rcases Nat.lt_or_ge i 24 with h3 | h3
      · have key : 16 + (i - 16) = i := by omega
        simp [show ¬ (i < 8) by omega, h1, h2, show ¬ (24 ≤ i) by omega,
          show ¬ (i - 8 < 8) by omega, show i - 16 < 8 by omega, key, show i < 32 by omega]
      · rcases Nat.lt_or_ge i 32 with h4 | h4
        · have key : 24 + (i - 24) = i := by omega
          simp [show ¬ (i < 8) by omega, h1, h2, h3, show ¬ (i - 8 < 8) by omega,
            show ¬ (i - 16 < 8) by omega, show i - 24 < 8 by omega, key, h4]
        · simp [show ¬ (i < 8) by omega, show ¬ (i - 8 < 8) by omega,
            show ¬ (i - 16 < 8) by omega, show ¬ (i - 24 < 8) by omega,
            show ¬ (i < 32) by omega]

theorem finish_le32 (a b : Nat) :
    finish (le32enc a ++ le32enc b) = (a % 4294967296, b % 4294967296) := by
  simp only [finish, le32enc, List.cons_append, List.nil_append, List.getD_cons_zero,
    List.getD_cons_succ]
  exact Prod.ext (le32_decode a) (le32_decode b)

theorem decReadF_cont {σ : Type} (eng : InfEngine σ) (fuel : Nat) (d d' : GzDecoder σ)
    (cap : Nat) (h : decStep eng d cap = .cont d') :
    decReadF eng (fuel + 1) d cap = decReadF eng fuel d' cap := by
  simp [decReadF, h]

theorem decReadF_ret {σ : Type} (eng : InfEngine σ) (fuel : Nat) (d d' : GzDecoder σ)
    (cap : Nat) (res : Except IOError (List Nat)) (h : decStep eng d cap = .ret res d') :
    decReadF eng (fuel + 1) d cap = some (res, d') := by
  simp [decReadF, h]

theorem decStep_body_chunk {σ : Type} (eng : InfEngine σ) (d : GzDecoder σ) (cap : Nat)
    (chunk : List Nat) (s' : σ) (r' : Reader) (hi : d.inner = .body) (hc : cap ≠ 0)
    (hch : chunk ≠ []) (hr : eng.read d.dstate d.r cap = (.ok chunk, s', r')) :
    decStep eng d cap = .ret (.ok chunk)
      { d with
        dstate := s'
        r := r'
        dcrc := crcUpdate d.dcrc chunk
        damt := (d.damt + chunk.length) % 4294967296 } := by
  obtain ⟨c, cs, rfl⟩ : ∃ c cs, chunk = c :: cs := by
    cases chunk with
    | nil => exact absurd rfl hch
    | cons c cs => exact ⟨c, cs, rfl⟩
  have h0 : (cap == 0) = false := by simp [hc]
  simp [decStep, hi, h0, hr]

theorem decStep_body_eos {σ : Type} (eng : InfEngine σ) (d : GzDecoder σ) (cap : Nat)
    (s' : σ) (r' : Reader) (hi : d.inner = .body) (hc : cap ≠ 0)
    (hr : eng.read d.dstate d.r cap = (.ok [], s', r')) :
    decStep eng d cap =
      .cont { d with inner := .finished 0 (List.replicate 8 0), dstate := s', r := r' } := by
  have h0 : (cap == 0) = false := by simp [hc]
  simp [decStep, hi, h0, hr]

theorem decStep_finished_fill {σ : Type} (eng : InfEngine σ) (d : GzDecoder σ) (cap : Nat)
    (pos : Nat) (buf : List Nat) (chunk : List Nat) (r' : Reader)
    (hi : d.inner = .finished pos buf) (hlt : pos < buf.length) (hch : chunk ≠ [])
    (hr : Reader.read d.r (buf.length - pos) = (.ok chunk, r')) :
    decStep eng d cap =
      .cont { d with
              inner := .finished (pos + chunk.length) (writeAt buf pos chunk)
              r := r' } := by
  obtain ⟨c, cs, rfl⟩ : ∃ c cs, chunk = c :: cs := by
    cases chunk with
    | nil => exact absurd rfl hch
    | cons c cs => exact ⟨c, cs, rfl⟩
  simp [decStep, hi, hlt, hr]

theorem decStep_finished_end {σ : Type} (eng : InfEngine σ) (d : GzDecoder σ) (cap : Nat)
    (pos : Nat) (buf : List Nat) (hi : d.inner = .finished pos buf)
    (hge : buf.length ≤ pos) (hcrc : (finish buf).1 = crcFinalize d.dcrc)
    (hamt : (finish buf).2 = d.damt) (hm : d.multi = false) :
    decStep eng d cap = .cont { d with inner := .end_ } := by
  have hlt : ¬ pos < buf.length := by omega
  simp [decStep, hi, hlt, hcrc, hamt, hm]

theorem decStep_end_ok {σ : Type} (eng : InfEngine σ) (d : GzDecoder σ) (cap : Nat)
    (hi : d.inner = .end_) : decStep eng d cap = .ret (.ok []) d := by
  simp [decStep, hi]

theorem storedInfReadF_step1 (fuel : Nat) (r r' : Reader) (cap n : Nat)
    (hrd : Reader.read r 4 = (.ok (le32enc n), r')) :
    storedInfReadF (fuel + 1) infInit r cap =
      storedInfReadF fuel (.atBlock 4 (le32enc n)) r' cap := by
  have hw : writeAt [0, 0, 0, 0] 0 (le32enc n) = le32enc n := writeAt_exact rfl
  simp only [storedInfReadF, infInit, List.length_cons, List.length_nil, Nat.sub_zero]
  rw [if_pos (by omega), hrd]
  simp only [le32enc, hw]
  simp [le32enc] at hw
  simp [hw]

theorem storedInfReadF_step2 (fuel : Nat) (r : Reader) (cap n : Nat) (hn : n ≠ 0)
    (hL : n < 4294967296) :
    storedInfReadF (fuel + 1) (.atBlock 4 (le32enc n)) r cap =
      storedInfReadF fuel (.inBlock n) r cap := by
  have hne : (n == 0) = false := by simp [hn]
  simp only [storedInfReadF, le32enc_length]
  rw [if_neg (by omega)]
  simp only [le32enc, List.getD_cons_zero, List.getD_cons_succ, le32_decode,
    Nat.mod_eq_of_lt hL, hne]
  simp

theorem storedInfReadF_step2_zero (fuel : Nat) (r : Reader) (cap : Nat) :
    storedInfReadF (fuel + 1) (.atBlock 4 (le32enc 0)) r cap = (.ok [], .done, r) := by
  simp only [storedInfReadF, le32enc_length]
  rw [if_neg (by omega)]
  simp [le32enc]

theorem storedInfReadF_step3 (fuel : Nat) (r r' : Reader) (cap k : Nat) (chunk : List Nat)
    (hrd : Reader.read r (min cap k) = (.ok chunk, r')) (hlen : chunk.length = k)
    (hch : chunk ≠ []) :
    storedInfReadF (fuel + 1) (.inBlock k) r cap = (.ok chunk, infInit, r') := by
  obtain ⟨c, cs, rfl⟩ : ∃ c cs, chunk = c :: cs := by
    cases chunk with
    | nil => exact absurd rfl hch
    | cons c cs => exact ⟨c, cs, rfl⟩
  subst hlen
  simp only [storedInfReadF, List.length_cons]
  simp only [List.length_cons] at hrd
  rw [hrd]
  simp

theorem storedInfReadF_block (fuel : Nat) (P rest : List Nat) (cap : Nat) (hP : P ≠ [])
    (hB : ∀ b ∈ P, b < 256) (hL : P.length < 4294967296) (hcap : P.length ≤ cap)
    (hrest : rest ≠ []) :
    storedInfReadF (fuel + 3) infInit [.data (le32enc P.length ++ (P ++ rest))] cap =
      (.ok P, infInit, [.data rest]) := by
  obtain ⟨p, ps, hps⟩ : ∃ p ps, P = p :: ps := by
    cases P with
    | nil => exact absurd rfl hP
    | cons p ps => exact ⟨p, ps, rfl⟩
  obtain ⟨x, xs, hxs⟩ : ∃ x xs, rest = x :: xs := by
    cases rest with
    | nil => exact absurd rfl hrest
    | cons x xs => exact ⟨x, xs, rfl⟩
  have hPe : (P ++ rest).isEmpty = false := by
    rw [hxs]
    exact isEmpty_append_cons _ _ _
  have hre : rest.isEmpty = false := by rw [hxs]; rfl
  have hrd1 : Reader.read [.data (le32enc P.length ++ (P ++ rest))] 4 =
      (.ok (le32enc P.length), [.data (P ++ rest)]) := by
    simp [Reader.read, List.take_left' (le32enc_length _),
      List.drop_left' (le32enc_length _), le32enc_map_mod, hPe]
  have hrd3 : Reader.read [.data (P ++ rest)] (min cap P.length) = (.ok P, [.data rest]) := by
    rw [Nat.min_eq_right hcap]
    simp [Reader.read, List.take_left, List.drop_left, map_mod_id hB, hre]
  rw [storedInfReadF_step1 (fuel + 2) _ _ cap P.length hrd1,
    storedInfReadF_step2 (fuel + 1) _ cap P.length (by rw [hps]; simp) hL,
    storedInfReadF_step3 fuel _ _ cap P.length P hrd3 rfl hP]

theorem storedInfReadF_term (fuel : Nat) (T : List Nat) (cap : Nat) (hT : T ≠ []) :
    storedInfReadF (fuel + 2) infInit [.data (le32enc 0 ++ T)] cap =
      (.ok [], .done, [.data T]) := by
  obtain ⟨x, xs, hxs⟩ : ∃ x xs, T = x :: xs := by
    cases T with
    | nil => exact absurd rfl hT
    | cons x xs => exact ⟨x, xs, rfl⟩
  have hTe : T.isEmpty = false := by rw [hxs]; rfl
  have hrd1 : Reader.read [.data (le32enc 0 ++ T)] 4 = (.ok (le32enc 0), [.data T]) := by
    simp [Reader.read, List.take_left' (le32enc_length _),
      List.drop_left' (le32enc_length _), le32enc_map_mod, hTe]
  rw [storedInfReadF_step1 (fuel + 1) _ _ cap 0 hrd1, storedInfReadF_step2_zero fuel _ cap]

theorem storedInfRead_block (P rest : List Nat) (cap : Nat) (hP : P ≠ [])
    (hB : ∀ b ∈ P, b < 256) (hL : P.length < 4294967296) (hcap : P.length ≤ cap)
    (hrest : rest ≠ []) :
    storedInfRead infInit [.data (le32enc P.length ++ (P ++ rest))] cap =
      (.ok P, infInit, [.data rest]) := by
  unfold storedInfRead
  have hw : Reader.weight [.data (le32enc P.length ++ (P ++ rest))] + 8 =
      (P.length + rest.length + 10) + 3 := by
    simp [Reader.weight, RdEvt.w, le32enc]
  rw [hw]
  exact storedInfReadF_block _ P rest cap hP hB hL hcap hrest

theorem storedInfRead_term (T : List Nat) (cap : Nat) (hT : T ≠ []) :
    storedInfRead infInit [.data (le32enc 0 ++ T)] cap = (.ok [], .done, [.data T]) := by
  unfold storedInfRead
  have hw : Reader.weight [.data (le32enc 0 ++ T)] + 8 = (T.length + 11) + 2 := by
    simp [Reader.weight, RdEvt.w, le32enc]
  rw [hw]
  exact storedInfReadF_term _ T cap hT

theorem encodeLoop_step {σ : Type}
    (engRead : σ → CrcReader → Nat → Except IOError (List Nat) × σ × CrcReader)
    (cap fuel : Nat) (e e' : GzEncoder σ) (n : Nat) (out acc : List Nat)
    (h : gzEncRead engRead e cap = (.ok (n, out), e')) (hn : n ≠ 0) :
    encodeLoop engRead cap (fuel + 1) e acc = encodeLoop engRead cap fuel e' (acc ++ out.take n) := by
  simp [encodeLoop, h, hn]

theorem encodeLoop_done {σ : Type}
    (engRead : σ → CrcReader → Nat → Except IOError (List Nat) × σ × CrcReader)
    (cap fuel : Nat) (e e' : GzEncoder σ) (out acc : List Nat)
    (h : gzEncRead engRead e cap = (.ok (0, out), e')) :
    encodeLoop engRead cap (fuel + 1) e acc = some (.ok acc) := by
  simp [encodeLoop, h]

theorem gzEncRead_hdr_engine_chunk {σ : Type}
    (engRead : σ → CrcReader → Nat → Except IOError (List Nat) × σ × CrcReader)
    (e : GzEncoder σ) (cap : Nat) (c : Nat) (cs : List Nat) (s' : σ) (c' : CrcReader)
    (heof : e.eof = false) (hpos : e.pos < e.header.length)
    (hne : min cap (e.header.length - e.pos) ≠ cap)
    (heng : engRead e.defl e.crcr (cap - min cap (e.header.length - e.pos)) =
      (.ok (c :: cs), s', c')) :
    gzEncRead engRead e cap =
      (.ok (min cap (e.header.length - e.pos) + (c :: cs).length,
        (e.header.drop e.pos).take (min cap (e.header.length - e.pos)) ++ c :: cs),
       { e with pos := e.pos + min cap (e.header.length - e.pos), defl := s', crcr := c' }) := by
  have hb : (min cap (e.header.length - e.pos) == cap) = false := by simp [hne]
  simp [gzEncRead, heof, hpos, hb, heng]

theorem gzEncRead_body_chunk {σ : Type}
    (engRead : σ → CrcReader → Nat → Except IOError (List Nat) × σ × CrcReader)
    (e : GzEncoder σ) (cap : Nat) (c : Nat) (cs : List Nat) (s' : σ) (c' : CrcReader)
    (heof : e.eof = false) (hpos : ¬ e.pos < e.header.length)
    (heng : engRead e.defl e.crcr cap = (.ok (c :: cs), s', c')) :
    gzEncRead engRead e cap =
      (.ok ((c :: cs).length, c :: cs), { e with defl := s', crcr := c' }) := by
  simp [gzEncRead, heof, hpos, heng]

theorem gzEncRead_body_eos {σ : Type}
    (engRead : σ → CrcReader → Nat → Except IOError (List Nat) × σ × CrcReader)
    (e : GzEncoder σ) (cap : Nat) (s' : σ) (c' : CrcReader)
    (heof : e.eof = false) (hpos : ¬ e.pos < e.header.length)
    (heng : engRead e.defl e.crcr cap = (.ok [], s', c')) (hp0 : 8 ≤ cap) :
    gzEncRead engRead e cap =
      (.ok (8, le32enc (CrcReader.sum c') ++ le32enc (CrcReader.amount c')),
       { e with defl := s', crcr := c', eof := true, pos := 8 }) := by
  have harr : (le32enc (CrcReader.sum c') ++ le32enc (CrcReader.amount c')).length = 8 := by
    simp [le32enc]
  have hmin : min cap ((le32enc (CrcReader.sum c') ++ le32enc (CrcReader.amount c')).length - 0)
      = 8 := by
    rw [harr]
    omega
  simp [gzEncRead, heof, hpos, heng, read_footer, hmin, List.take_of_length_le, harr]
  omega

theorem gzEncRead_footer_done {σ : Type}
    (engRead : σ → CrcReader → Nat → Except IOError (List Nat) × σ × CrcReader)
    (e : GzEncoder σ) (cap : Nat) (heof : e.eof = true) (hp : e.pos = 8) :
    gzEncRead engRead e cap = (.ok (0, []), e) := by
  simp [gzEncRead, heof, read_footer, hp]

theorem storedEncRead_chunk (lvl : Nat) (c : CrcReader) (cap : Nat) (P : List Nat)
    (hc : c.inner = [.data P]) (hP : P ≠ []) (hB : ∀ b ∈ P, b < 256)
    (hcap : P.length + 4 ≤ cap) (h5 : ¬ cap < 5) :
    storedEncRead lvl .running c cap =
      (.ok (le32enc P.length ++ P), .running,
       { crc := crcUpdate c.crc P, amt := (c.amt + P.length) % 4294967296, inner := [] }) := by
  obtain ⟨p, ps, rfl⟩ : ∃ p ps, P = p :: ps := by
    cases P with
    | nil => exact absurd rfl hP
    | cons p ps => exact ⟨p, ps, rfl⟩
  have ht : ((p :: ps).take (cap - 4)) = p :: ps := List.take_of_length_le (by omega)
  have hd : ((p :: ps).drop (cap - 4)) = [] := List.drop_eq_nil_of_le (by omega)
  simp [storedEncRead, h5, CrcReader.read, Reader.read, hc, ht, hd, map_mod_id hB]

theorem storedEncRead_eos (lvl : Nat) (c : CrcReader) (cap : Nat)
    (hrd : Reader.read c.inner (cap - 4) = (.ok [], [])) (h5 : ¬ cap < 5) :
    storedEncRead lvl .running c cap =
      (.ok (le32enc 0), .finished,
       { crc := c.crc, amt := c.amt % 4294967296, inner := [] }) := by
  simp [storedEncRead, h5, CrcReader.read, hrd, crcUpdate]

theorem storedEncRead_finished (lvl : Nat) (c : CrcReader) (cap : Nat) :
    storedEncRead lvl .finished c cap = (.ok [], .finished, c) := rfl

theorem parseHeaderF_hdr_read (f : Nat) (r r' : Reader) (hd : GzHeader) (flag hasher : Nat)
    (chunk : List Nat) (pos : Nat) (buf : List Nat) (hlt : pos < buf.length)
    (hch : chunk ≠ []) (hrd : Reader.read r (buf.length - pos) = (.ok chunk, r')) :
    parseHeaderF (f + 1) r (.header pos buf) hd flag hasher =
      parseHeaderF f r' (.header (pos + chunk.length) (writeAt buf pos chunk)) hd flag hasher := by
  obtain ⟨c, cs, rfl⟩ : ∃ c cs, chunk = c :: cs := by
    cases chunk with
    | nil => exact absurd rfl hch
    | cons c cs => exact ⟨c, cs, rfl⟩
  simp [parseHeaderF, hlt, hrd]

theorem parseHeaderF_hdr_valid (f : Nat) (r : Reader) (hd : GzHeader) (flag hasher : Nat) :
    parseHeaderF (f + 1) r (.header 10 mkHeaderBytes) hd flag hasher =
      parseHeaderF f r (.extraLen 0 [0, 0])
        { hd with operating_system := 255, mtime := 0 } 0 (crcUpdate hasher mkHeaderBytes) := by
  simp [parseHeaderF, mkHeaderBytes]

theorem parseHeaderF_skips (f : Nat) (r : Reader) (hd : GzHeader) (hasher : Nat) :
    parseHeaderF (f + 4) r (.extraLen 0 [0, 0]) hd 0 hasher =
      ⟨.ok (), r, .crc (crcFinalize hasher % 65536) 0 [0, 0], hd, 0, hasher⟩ := by
  simp [parseHeaderF, FEXTRA, FNAME, FCOMMENT, FHCRC]

/-- Parsing the default-builder header (flag 0) consumes exactly its 10
bytes and succeeds, whatever follows. -/
theorem parse_default_header (f : Nat) (rest : List Nat) (hrest : rest ≠ []) :
    ((parseHeaderF (f + 6) [.data (mkHeaderBytes ++ rest)] initHeaderState GzHeader.default 0
      CRCINIT).res = .ok ()) ∧
    ((parseHeaderF (f + 6) [.data (mkHeaderBytes ++ rest)] initHeaderState GzHeader.default 0
      CRCINIT).r = [.data rest]) := by
  obtain ⟨x, xs, hxs⟩ : ∃ x xs, rest = x :: xs := by
    cases rest with
    | nil => exact absurd rfl hrest
    | cons x xs => exact ⟨x, xs, rfl⟩
  have hre : rest.isEmpty = false := by rw [hxs]; rfl
  have hrd : Reader.read [.data (mkHeaderBytes ++ rest)] ((List.replicate 10 (0 : Nat)).length - 0)
      = (.ok mkHeaderBytes, [.data rest]) := by
    simp only [List.length_replicate, Nat.sub_zero, Reader.read,
      List.take_left' (show mkHeaderBytes.length = 10 from rfl),
      List.drop_left' (show mkHeaderBytes.length = 10 from rfl), hre,
      show mkHeaderBytes.map (· % 256) = mkHeaderBytes from rfl]
    simp
  have hwr : writeAt (List.replicate 10 0) 0 mkHeaderBytes = mkHeaderBytes := writeAt_exact rfl
  have hchain : parseHeaderF (f + 6) [.data (mkHeaderBytes ++ rest)] initHeaderState
      GzHeader.default 0 CRCINIT =
      ⟨.ok (), [.data rest],
       .crc (crcFinalize (crcUpdate CRCINIT mkHeaderBytes) % 65536) 0 [0, 0],
       { GzHeader.default with operating_system := 255, mtime := 0 }, 0,
       crcUpdate CRCINIT mkHeaderBytes⟩ := by
    rw [show initHeaderState = .header 0 (List.replicate 10 0) from rfl,
      parseHeaderF_hdr_read (f + 5) _ _ _ _ _ mkHeaderBytes 0 (List.replicate 10 0)
        (by simp) (by simp [mkHeaderBytes]) hrd]
    simp only [hwr, Nat.zero_add, show (0 : Nat) + mkHeaderBytes.length = 10 from rfl]
    rw [parseHeaderF_hdr_valid (f + 4), parseHeaderF_skips f]
  rw [hchain]
  exact ⟨rfl, rfl⟩

/-- After a successful header parse, the read loop decodes the body
block, validates the trailer and terminates cleanly, yielding exactly the
original member bytes. -/
theorem decodeLoop_member (p : Nat) (ps : List Nat) (hd0 : GzDecoder InfSt) (cap : Nat)
    (hB : ∀ b ∈ p :: ps, b < 256) (hL' : ps.length + 1 < 4294967296)
    (hcap : ps.length + 1 ≤ cap) (hcap0 : cap ≠ 0)
    (hi : hd0.inner = .body)
    (hr : hd0.r = [.data (le32enc (p :: ps).length ++ ((p :: ps) ++
      (le32enc 0 ++ (le32enc (crc32 (p :: ps)) ++ le32enc (p :: ps).length))))])
    (hdc : hd0.dcrc = CRCINIT) (hda : hd0.damt = 0) (hds : hd0.dstate = infInit)
    (hm : hd0.multi = false) (fuel : Nat) (acc : List Nat) :
    decodeLoop storedEngine cap (fuel + 2) hd0 acc = some (.ok (acc ++ (p :: ps))) := by
  have hLc : (p :: ps).length < 4294967296 := by
    simp only [List.length_cons]
    exact hL'
  have heng1 : storedEngine.read hd0.dstate hd0.r cap =
      (.ok (p :: ps), infInit, [.data (le32enc 0 ++
        (le32enc (crc32 (p :: ps)) ++ le32enc (p :: ps).length))]) := by
    rw [hds, hr]
    exact storedInfRead_block (p :: ps) _ cap (by simp) hB (by simpa using hL')
      (by simpa using hcap) (by simp [le32enc])
  have hstep1 : decStep storedEngine hd0 cap = .ret (.ok (p :: ps))
      { hd0 with
        dstate := infInit
        r := [.data (le32enc 0 ++ (le32enc (crc32 (p :: ps)) ++ le32enc (p :: ps).length))]
        dcrc := crcUpdate hd0.dcrc (p :: ps)
        damt := (hd0.damt + (p :: ps).length) % 4294967296 } :=
    decStep_body_chunk storedEngine hd0 cap (p :: ps) infInit _ hi hcap0 (by simp) heng1
  have hdr1 : decReadF storedEngine (8 * Reader.weight hd0.r + 64) hd0 cap =
      some (.ok (p :: ps),
        { hd0 with
          dstate := infInit
          r := [.data (le32enc 0 ++ (le32enc (crc32 (p :: ps)) ++ le32enc (p :: ps).length))]
          dcrc := crcUpdate hd0.dcrc (p :: ps)
          damt := (hd0.damt + (p :: ps).length) % 4294967296 }) := by
    obtain ⟨m, hm1⟩ : ∃ m, 8 * Reader.weight hd0.r + 64 = m + 1 :=
      ⟨8 * Reader.weight hd0.r + 63, by omega⟩
    rw [hm1]
    exact decReadF_ret _ _ _ _ _ _ hstep1
  have heng2 : storedEngine.read infInit
      [.data (le32enc 0 ++ (le32enc (crc32 (p :: ps)) ++ le32enc (p :: ps).length))] cap =
      (.ok [], .done, [.data (le32enc (crc32 (p :: ps)) ++ le32enc (p :: ps).length)]) :=
    storedInfRead_term _ cap (by simp [le32enc])
  have hT8 : (le32enc (crc32 (p :: ps)) ++ le32enc (p :: ps).length).length = 8 := by
    simp [le32enc]
  have hwT : writeAt (List.replicate 8 0) 0
      (le32enc (crc32 (p :: ps)) ++ le32enc (p :: ps).length) =
      le32enc (crc32 (p :: ps)) ++ le32enc (p :: ps).length :=
    writeAt_exact (by simp [le32enc])
  have hrd3 : Reader.read
      [RdEvt.data (le32enc (crc32 (p :: ps)) ++ le32enc (p :: ps).length)]
      ((List.replicate 8 (0 : Nat)).length - 0) =
      (.ok (le32enc (crc32 (p :: ps)) ++ le32enc (p :: ps).length), []) := by
    simp only [List.length_replicate, Nat.sub_zero, Reader.read,
      List.take_of_length_le (Nat.le_of_eq hT8), List.drop_eq_nil_of_le (Nat.le_of_eq hT8),
      List.map_append, le32enc_map_mod]
    simp
  have hfin : finish (le32enc (crc32 (p :: ps)) ++ le32enc (p :: ps).length) =
      (crc32 (p :: ps), (p :: ps).length) := by
    rw [finish_le32, Nat.mod_eq_of_lt (crc32_lt (p :: ps)), Nat.mod_eq_of_lt hLc]
  have hmodL : (p :: ps).length % 4294967296 = (p :: ps).length := Nat.mod_eq_of_lt hLc
  have hstep2 : decStep storedEngine
      { hd0 with
        dstate := infInit
        r := [.data (le32enc 0 ++ (le32enc (crc32 (p :: ps)) ++ le32enc (p :: ps).length))]
        dcrc := crcUpdate hd0.dcrc (p :: ps)
        damt := (hd0.damt + (p :: ps).length) % 4294967296 } cap =
      .cont { hd0 with
              inner := .finished 0 (List.replicate 8 0)
              dstate := .done
              r := [.data (le32enc (crc32 (p :: ps)) ++ le32enc (p :: ps).length)]
              dcrc := crcUpdate hd0.dcrc (p :: ps)
              damt := (hd0.damt + (p :: ps).length) % 4294967296 } :=
    decStep_body_eos storedEngine _ cap .done _ hi hcap0 heng2
  have hstep3 : decStep storedEngine
      { hd0 with
        inner := .finished 0 (List.replicate 8 0)
        dstate := .done
        r := [.data (le32enc (crc32 (p :: ps)) ++ le32enc (p :: ps).length)]
        dcrc := crcUpdate hd0.dcrc (p :: ps)
        damt := (hd0.damt + (p :: ps).length) % 4294967296 } cap =
      .cont { hd0 with
              inner := .finished 8 (le32enc (crc32 (p :: ps)) ++ le32enc (p :: ps).length)
              dstate := .done
              r := []
              dcrc := crcUpdate hd0.dcrc (p :: ps)
              damt := (hd0.damt + (p :: ps).length) % 4294967296 } := by
    have h3 := decStep_finished_fill storedEngine
      { hd0 with
        inner := .finished 0 (List.replicate 8 0)
        dstate := .done
        r := [.data (le32enc (crc32 (p :: ps)) ++ le32enc (p :: ps).length)]
        dcrc := crcUpdate hd0.dcrc (p :: ps)
        damt := (hd0.damt + (p :: ps).length) % 4294967296 } cap 0 (List.replicate 8 0)
      (le32enc (crc32 (p :: ps)) ++ le32enc (p :: ps).length) [] rfl (by simp)
      (by simp [le32enc]) hrd3
    rw [h3]
    simp only [hwT, Nat.zero_add, hT8]
  have hstep4 : decStep storedEngine
      { hd0 with
        inner := .finished 8 (le32enc (crc32 (p :: ps)) ++ le32enc (p :: ps).length)
        dstate := .done
        r := []
        dcrc := crcUpdate hd0.dcrc (p :: ps)
        damt := (hd0.damt + (p :: ps).length) % 4294967296 } cap =
      .cont { hd0 with
              inner := .end_
              dstate := .done
              r := []
              dcrc := crcUpdate hd0.dcrc (p :: ps)
              damt := (hd0.damt + (p :: ps).length) % 4294967296 } :=
    decStep_finished_end storedEngine _ cap 8 _ rfl (by simp [le32enc])
      (by
        rw [hfin]
        show crc32 (p :: ps) = crcFinalize (crcUpdate hd0.dcrc (p :: ps))
        rw [hdc]
        rfl)
      (by
        rw [hfin]
        show (p :: ps).length = (hd0.damt + (p :: ps).length) % 4294967296
        rw [hda, Nat.zero_add]
        exact hmodL.symm) hm
  have hstep5 : decStep storedEngine
      { hd0 with
        inner := .end_
        dstate := .done
        r := []
        dcrc := crcUpdate hd0.dcrc (p :: ps)
        damt := (hd0.damt + (p :: ps).length) % 4294967296 } cap =
      .ret (.ok [])
        { hd0 with
          inner := .end_
          dstate := .done
          r := []
          dcrc := crcUpdate hd0.dcrc (p :: ps)
          damt := (hd0.damt + (p :: ps).length) % 4294967296 } :=
    decStep_end_ok storedEngine _ cap rfl
  have hdr2 : decReadF storedEngine
      (8 * Reader.weight
        [RdEvt.data (le32enc 0 ++ (le32enc (crc32 (p :: ps)) ++ le32enc (p :: ps).length))] + 64)
      { hd0 with
        dstate := infInit
        r := [.data (le32enc 0 ++ (le32enc (crc32 (p :: ps)) ++ le32enc (p :: ps).length))]
        dcrc := crcUpdate hd0.dcrc (p :: ps)
        damt := (hd0.damt + (p :: ps).length) % 4294967296 } cap =
      some (.ok [],
        { hd0 with
          inner := .end_
          dstate := .done
          r := []
          dcrc := crcUpdate hd0.dcrc (p :: ps)
          damt := (hd0.damt + (p :: ps).length) % 4294967296 }) := by
    obtain ⟨m, hm2⟩ : ∃ m, 8 * Reader.weight
        [RdEvt.data (le32enc 0 ++ (le32enc (crc32 (p :: ps)) ++ le32enc (p :: ps).length))] + 64
        = (((m + 1) + 1) + 1) + 1 :=
      ⟨8 * Reader.weight
        [RdEvt.data (le32enc 0 ++ (le32enc (crc32 (p :: ps)) ++ le32enc (p :: ps).length))] + 60,
       by omega⟩
    rw [hm2, decReadF_cont _ _ _ _ _ hstep2, decReadF_cont _ _ _ _ _ hstep3,
      decReadF_cont _ _ _ _ _ hstep4, decReadF_ret _ _ _ _ _ _ hstep5]
  rw [show fuel + 2 = (fuel + 1) + 1 from rfl]
  simp only [decodeLoop, hdr1, hdr2]
  simp

/-- Decoding a single non-empty member (right-associated stream form). -/
theorem decodeAll_cons (p : Nat) (ps : List Nat) (hB : ∀ b ∈ p :: ps, b < 256)
    (hL' : ps.length + 1 < 4294967296) :
    decodeAll (mkHeaderBytes ++ (le32enc (p :: ps).length ++ ((p :: ps) ++
      (le32enc 0 ++ (le32enc (crc32 (p :: ps)) ++ le32enc (p :: ps).length))))) =
      some (.ok (p :: ps)) := by
  have hw6 : parseFuel [.data (mkHeaderBytes ++ (le32enc (p :: ps).length ++ ((p :: ps) ++
      (le32enc 0 ++ (le32enc (crc32 (p :: ps)) ++ le32enc (p :: ps).length)))))] =
      ((le32enc (p :: ps).length ++ ((p :: ps) ++
        (le32enc 0 ++ (le32enc (crc32 (p :: ps)) ++ le32enc (p :: ps).length)))).length + 21)
        + 6 := by
    simp [parseFuel, Reader.weight, RdEvt.w, mkHeaderBytes, le32enc]
  obtain ⟨hres, hrr⟩ := parse_default_header
    ((le32enc (p :: ps).length ++ ((p :: ps) ++
      (le32enc 0 ++ (le32enc (crc32 (p :: ps)) ++ le32enc (p :: ps).length)))).length + 21)
    (le32enc (p :: ps).length ++ ((p :: ps) ++
      (le32enc 0 ++ (le32enc (crc32 (p :: ps)) ++ le32enc (p :: ps).length))))
    (by simp [le32enc])
  have hd0i : (GzDecoder.new storedEngine
      [.data (mkHeaderBytes ++ (le32enc (p :: ps).length ++ ((p :: ps) ++
        (le32enc 0 ++ (le32enc (crc32 (p :: ps)) ++ le32enc (p :: ps).length)))))]).inner =
      .body := by
    simp only [GzDecoder.new, hw6, hres]
  have hd0r : (GzDecoder.new storedEngine
      [.data (mkHeaderBytes ++ (le32enc (p :: ps).length ++ ((p :: ps) ++
        (le32enc 0 ++ (le32enc (crc32 (p :: ps)) ++ le32enc (p :: ps).length)))))]).r =
      [.data (le32enc (p :: ps).length ++ ((p :: ps) ++
        (le32enc 0 ++ (le32enc (crc32 (p :: ps)) ++ le32enc (p :: ps).length))))] := by
    simp only [GzDecoder.new, hw6, hrr]
  have hlen : (mkHeaderBytes ++ (le32enc (p :: ps).length ++ ((p :: ps) ++
      (le32enc 0 ++ (le32enc (crc32 (p :: ps)) ++ le32enc (p :: ps).length))))).length =
      ps.length + 27 := by
    simp [mkHeaderBytes, le32enc]
  have hmem := decodeLoop_member p ps
    (GzDecoder.new storedEngine
      [.data (mkHeaderBytes ++ (le32enc (p :: ps).length ++ ((p :: ps) ++
        (le32enc 0 ++ (le32enc (crc32 (p :: ps)) ++ le32enc (p :: ps).length)))))])
    ((mkHeaderBytes ++ (le32enc (p :: ps).length ++ ((p :: ps) ++
      (le32enc 0 ++ (le32enc (crc32 (p :: ps)) ++ le32enc (p :: ps).length))))).length + 64)
    hB hL' (by rw [hlen]; omega) (by rw [hlen]; omega) hd0i hd0r rfl rfl rfl rfl 6 []
  simp only [decodeAll]
  rw [show (8 : Nat) = 6 + 2 from rfl, hmem, List.nil_append]

/-- Reading the encoder to end of stream produces: header bytes, the
modelled compressed body, and the 8-byte trailer (CRC-32 then ISIZE). -/
theorem encodeAll_eq (lvl : Nat) (P : List Nat) (hB : ∀ b ∈ P, b < 256)
    (hL : P.length < 4294967296) :
    encodeAll lvl P = some (.ok (mkHeaderBytes ++
      (if P.isEmpty then [] else le32enc P.length ++ P) ++ le32enc 0 ++
      le32enc (crc32 P) ++ le32enc P.length)) := by
  cases P with
  | nil => rfl
  | cons p ps =>
    have hL' : ps.length + 1 < 4294967296 := by simpa using hL
    have hLen : (ps.length + 1) % 4294967296 = ps.length + 1 := Nat.mod_eq_of_lt hL'
    have heng1 : storedEncRead lvl .running
        { crc := CRCINIT, amt := 0, inner := [.data (p :: ps)] } ((p :: ps).length + 300 - 10) =
        (.ok (le32enc (p :: ps).length ++ (p :: ps)), .running,
         { crc := crcUpdate CRCINIT (p :: ps), amt := (p :: ps).length, inner := [] }) := by
      rw [storedEncRead_chunk lvl _ _ (p :: ps) rfl (by simp) hB (by simp) (by simp)]
      simp [hLen]
    have call1 : gzEncRead (storedEncRead lvl)
        { defl := .running, crcr := { crc := CRCINIT, amt := 0, inner := [.data (p :: ps)] },
          header := mkHeaderBytes, pos := 0, eof := false } ((p :: ps).length + 300) =
        (.ok ((p :: ps).length + 14, mkHeaderBytes ++ (le32enc (p :: ps).length ++ (p :: ps))),
         { defl := .running,
           crcr := { crc := crcUpdate CRCINIT (p :: ps), amt := (p :: ps).length, inner := [] },
           header := mkHeaderBytes, pos := 10, eof := false }) := by
      have hmin : min ((p :: ps).length + 300) (mkHeaderBytes.length - 0) = 10 := by
        simp [mkHeaderBytes]
      have hne : (min ((p :: ps).length + 300) (mkHeaderBytes.length - 0) ==
          (p :: ps).length + 300) = false := by
        rw [hmin]
        simp only [beq_eq_false_iff_ne, ne_eq]
        omega
      simp only [gzEncRead, hmin, hne, Bool.false_eq_true, if_false]
      simp only [show ((p :: ps).length + 300 - 10) = ((p :: ps).length + 290) from by omega]
      rw [show (300 : Nat) = 290 + 10 from rfl]
      simp only [show (p :: ps).length + (290 + 10) - 10 = (p :: ps).length + 290 from by omega]
        at heng1 ⊢
      rw [heng1]
      simp [le32enc, mkHeaderBytes]
      omega
    have heng2 : storedEncRead lvl .running
        { crc := crcUpdate CRCINIT (p :: ps), amt := (p :: ps).length, inner := [] }
        ((p :: ps).length + 300) =
        (.ok (le32enc 0), .finished,
         { crc := crcUpdate CRCINIT (p :: ps), amt := (p :: ps).length, inner := [] }) := by
      rw [storedEncRead_eos lvl
        { crc := crcUpdate CRCINIT (p :: ps), amt := (p :: ps).length, inner := [] }
        ((p :: ps).length + 300) rfl (by simp)]
      simp [hLen]
    have call2 : gzEncRead (storedEncRead lvl)
        { defl := .running,
          crcr := { crc := crcUpdate CRCINIT (p :: ps), amt := (p :: ps).length, inner := [] },
          header := mkHeaderBytes, pos := 10, eof := false } ((p :: ps).length + 300) =
        (.ok (4, le32enc 0),
         { defl := .finished,
           crcr := { crc := crcUpdate CRCINIT (p :: ps), amt := (p :: ps).length, inner := [] },
           header := mkHeaderBytes, pos := 10, eof := false }) := by
      have hpos : ¬ (10 : Nat) < mkHeaderBytes.length := by simp [mkHeaderBytes]
      simp only [gzEncRead, Bool.false_eq_true, if_false, hpos, heng2]
      simp [le32enc]
    have call3 : gzEncRead (storedEncRead lvl)
        { defl := .finished,
          crcr := { crc := crcUpdate CRCINIT (p :: ps), amt := (p :: ps).length, inner := [] },
          header := mkHeaderBytes, pos := 10, eof := false } ((p :: ps).length + 300) =
        (.ok (8, le32enc (crc32 (p :: ps)) ++ le32enc ((p :: ps).length)),
         { defl := .finished,
           crcr := { crc := crcUpdate CRCINIT (p :: ps), amt := (p :: ps).length, inner := [] },
           header := mkHeaderBytes, pos := 8, eof := true }) := by
      rw [gzEncRead_body_eos (storedEncRead lvl) _ _ .finished _ rfl
        (by simp [mkHeaderBytes]) (storedEncRead_finished lvl _ _) (by omega)]
      simp [CrcReader.sum, CrcReader.amount, crc32]
    have call4 : gzEncRead (storedEncRead lvl)
        { defl := .finished,
          crcr := { crc := crcUpdate CRCINIT (p :: ps), amt := (p :: ps).length, inner := [] },
          header := mkHeaderBytes, pos := 8, eof := true } ((p :: ps).length + 300) =
        (.ok (0, []),
         { defl := .finished,
           crcr := { crc := crcUpdate CRCINIT (p :: ps), amt := (p :: ps).length, inner := [] },
           header := mkHeaderBytes, pos := 8, eof := true }) :=
      gzEncRead_footer_done _ _ _ rfl rfl
    show encodeLoop (storedEncRead lvl) ((p :: ps).length + 300) 8
      { defl := .running, crcr := { crc := CRCINIT, amt := 0, inner := [.data (p :: ps)] },
        header := mkHeaderBytes, pos := 0, eof := false } [] = _
    rw [encodeLoop_step _ _ 7 _ _ _ _ _ call1 (by omega),
      encodeLoop_step _ _ 6 _ _ _ _ _ call2 (by omega),
      encodeLoop_step _ _ 5 _ _ _ _ _ call3 (by omega),
      encodeLoop_done _ _ 4 _ _ _ _ call4]
    have ht1 : (mkHeaderBytes ++ (le32enc (p :: ps).length ++ (p :: ps))).take
        ((p :: ps).length + 14) = mkHeaderBytes ++ (le32enc (p :: ps).length ++ (p :: ps)) :=
      List.take_of_length_le (by simp [mkHeaderBytes, le32enc])
    have ht2 : (le32enc (0 : Nat)).take 4 = le32enc 0 := rfl
    have ht3 : (le32enc (crc32 (p :: ps)) ++ le32enc ((p :: ps).length)).take 8 =
        le32enc (crc32 (p :: ps)) ++ le32enc ((p :: ps).length) :=
      List.take_of_length_le (by simp [le32enc])
    rw [ht1, ht2, ht3]
    simp [List.append_assoc]

/-- Decoding the encoder's output stream yields the original bytes. -/
theorem decodeAll_eq (P : List Nat) (hB : ∀ b ∈ P, b < 256) (hL : P.length < 4294967296) :
    decodeAll (mkHeaderBytes ++ (if P.isEmpty then [] else le32enc P.length ++ P) ++
      le32enc 0 ++ le32enc (crc32 P) ++ le32enc P.length) = some (.ok P) := by
  cases P with
  | nil => rfl
  | cons p ps =>
    have hL' : ps.length + 1 < 4294967296 := by simpa using hL
    have hshape : mkHeaderBytes ++ (if (p :: ps).isEmpty then [] else
        le32enc (p :: ps).length ++ (p :: ps)) ++ le32enc 0 ++ le32enc (crc32 (p :: ps)) ++
        le32enc (p :: ps).length =
        mkHeaderBytes ++ (le32enc (p :: ps).length ++ ((p :: ps) ++
          (le32enc 0 ++ (le32enc (crc32 (p :: ps)) ++ le32enc (p :: ps).length)))) := by
      simp only [List.isEmpty_cons, Bool.false_eq_true, if_false, List.append_assoc]
    rw [hshape]
    exact decodeAll_cons p ps hB hL'

/-- When the parser is mid-fill and the underlying reader reports an
error, the parse surfaces it with every piece of accumulated state
unchanged; only the error event is consumed from the script. -/
theorem parse_error_event (fuel : Nat) (B : Reader) (er : IOError) (s : GzHeaderState)
    (hd : GzHeader) (flag hasher : Nat) (hf : fillingNow s hd flag) :
    parseHeaderF (fuel + 1) (.ioerr er :: B) s hd flag hasher =
      ⟨.error er, B, s, hd, flag, hasher⟩ := by
  cases s with
  | header pos buf =>
    simp only [fillingNow] at hf
    simp [parseHeaderF, hf, Reader.read]
  | extraLen pos buf =>
    simp only [fillingNow] at hf
    have h1 : (flag &&& FEXTRA == 0) = false := by simp [hf.1]
    simp [parseHeaderF, h1, hf.2, Reader.read]
  | extra pos =>
    simp only [fillingNow] at hf
    obtain ⟨ex, hex, hlt⟩ := hf
    simp [parseHeaderF, hex, hlt, Reader.read]
  | fileName => simp [fillingNow] at hf
  | comment => simp [fillingNow] at hf
  | crc calced pos buf =>
    simp only [fillingNow] at hf
    have h1 : (flag &&& FHCRC == 0) = false := by simp [hf.1]
    simp [parseHeaderF, h1, hf.2, Reader.read]

/-- The NUL-terminated scan surfaces an error event at once, keeping the
accumulated bytes and consuming only the error event. -/
theorem readUntilNul_err (fuel : Nat) (B : Reader) (er : IOError) (acc : List Nat) :
    readUntilNul (fuel + 1) (.ioerr er :: B) acc = ⟨.error er, acc, B⟩ := by
  simp [readUntilNul, Reader.read]

/-- With FNAME set, an error event hit while scanning the NUL-terminated
file name is surfaced with the bytes accumulated so far stored in the
header's `filename` field, the state still `FileName`, and only the error
event consumed. -/
theorem parse_error_event_name (fuel : Nat) (B : Reader) (er : IOError) (hd : GzHeader)
    (flag hasher : Nat) (hfl : flag &&& FNAME ≠ 0) :
    parseHeaderF (fuel + 1) (.ioerr er :: B) .fileName hd flag hasher =
      ⟨.error er, B, .fileName, { hd with filename := some (hd.filename.getD []) }, flag,
        hasher⟩ := by
  have h1 : (flag &&& FNAME == 0) = false := by simp [hfl]
  have hw : Reader.weight (RdEvt.ioerr er :: B) + 1 = (Reader.weight B + 1) + 1 := by
    simp [Reader.weight, RdEvt.w]
    omega
  simp only [parseHeaderF, h1, Bool.false_eq_true, if_false, hw,
    readUntilNul_err (Reader.weight B + 1) B er (hd.filename.getD [])]

/-- With FCOMMENT set, an error event hit while scanning the
NUL-terminated comment is surfaced with the bytes accumulated so far
stored in the header's `comment` field, the state still `Comment`, and
only the error event consumed. -/
theorem parse_error_event_comment (fuel : Nat) (B : Reader) (er : IOError) (hd : GzHeader)
    (flag hasher : Nat) (hfl : flag &&& FCOMMENT ≠ 0) :
    parseHeaderF (fuel + 1) (.ioerr er :: B) .comment hd flag hasher =
      ⟨.error er, B, .comment, { hd with comment := some (hd.comment.getD []) }, flag,
        hasher⟩ := by
  have h1 : (flag &&& FCOMMENT == 0) = false := by simp [hfl]
  have hw : Reader.weight (RdEvt.ioerr er :: B) + 1 = (Reader.weight B + 1) + 1 := by
    simp [Reader.weight, RdEvt.w]
    omega
  simp only [parseHeaderF, h1, Bool.false_eq_true, if_false, hw,
    readUntilNul_err (Reader.weight B + 1) B er (hd.comment.getD [])]

set_option maxRecDepth 8192 in
/-- C2: the header parser fills the 2-byte little-endian extra length,
CRC-updates it and allocates an extra field of exactly that size — but it
does *not* CRC-update the extra-field bytes, so the running CRC compared
in the FHCRC check skips them: a header whose stored HCRC is computed per
RFC 1952 over all preceding header bytes (extra included) is rejected as
corrupt, while the same header passes when its stored HCRC skips the
extra payload. -/
theorem C2_header_crc_skips_extra :
    (parseHeaderF 64 [.data c2RfcInput] initHeaderState GzHeader.default 0 CRCINIT).res =
      .error .corrupt ∧
    (parseHeaderF 64 [.data c2CodeInput] initHeaderState GzHeader.default 0 CRCINIT).res =
      .ok () ∧
    (parseHeaderF 64 [.data c2CodeInput] initHeaderState GzHeader.default 0 CRCINIT).h.extra =
      some [170] :=
  ⟨rfl, rfl, rfl⟩

/-- C3 counterexample: with FNAME set and the input ending (0-byte read)
in the middle of the NUL-terminated file name, the parse does not fail
with `UnexpectedEof`: it silently treats end of input as the terminator
and succeeds, storing the partial name. -/
theorem C3_counterexample :
    (parseHeaderF 64 [.data [0x1f, 0x8b, 8, 8, 0, 0, 0, 0, 0, 255, 97, 98]] initHeaderState
      GzHeader.default 0 CRCINIT).res = .ok () ∧
    (parseHeaderF 64 [.data [0x1f, 0x8b, 8, 8, 0, 0, 0, 0, 0, 255, 97, 98]] initHeaderState
      GzHeader.default 0 CRCINIT).h.filename = some [97, 98] :=
  ⟨rfl, rfl⟩

/-- C3 amended: a 0-byte read yields `UnexpectedEof` whenever the parser
is filling one of the fixed-size buffers (fixed header, extra length,
extra payload, header CRC); but while consuming the NUL-terminated NAME
(and COMMENT) a 0-byte read silently terminates the field as if a NUL had
been read, and parsing continues. -/
theorem C3_amended :
    (∀ fuel r r' pos buf hd flag hasher, pos < List.length buf →
      Reader.read r (buf.length - pos) = (.ok [], r') →
      (parseHeaderF (fuel + 1) r (.header pos buf) hd flag hasher).res =
        .error .unexpectedEof) ∧
    (∀ fuel r r' pos buf hd flag hasher, flag &&& FEXTRA ≠ 0 → pos < List.length buf →
      Reader.read r (buf.length - pos) = (.ok [], r') →
      (parseHeaderF (fuel + 1) r (.extraLen pos buf) hd flag hasher).res =
        .error .unexpectedEof) ∧
    (∀ fuel r r' pos ex hd flag hasher, hd.extra = some ex → pos < List.length ex →
      Reader.read r (ex.length - pos) = (.ok [], r') →
      (parseHeaderF (fuel + 1) r (.extra pos) hd flag hasher).res = .error .unexpectedEof) ∧
    (∀ fuel r r' calced pos buf hd flag hasher, flag &&& FHCRC ≠ 0 → pos < List.length buf →
      Reader.read r (buf.length - pos) = (.ok [], r') →
      (parseHeaderF (fuel + 1) r (.crc calced pos buf) hd flag hasher).res =
        .error .unexpectedEof) ∧
    (∀ fuel hd hasher acc, hd.filename = some acc →
      (parseHeaderF (fuel + 3) [] .fileName hd FNAME hasher).res = .ok () ∧
      (parseHeaderF (fuel + 3) [] .fileName hd FNAME hasher).h.filename = some acc) ∧
    (∀ fuel hd hasher acc, hd.comment = some acc →
      (parseHeaderF (fuel + 2) [] .comment hd FCOMMENT hasher).res = .ok () ∧
      (parseHeaderF (fuel + 2) [] .comment hd FCOMMENT hasher).h.comment = some acc) := by
  refine ⟨?_, ?_, ?_, ?_, ?_, ?_⟩
  · intro fuel r r' pos buf hd flag hasher hlt hrd
    simp [parseHeaderF, hlt, hrd]
  · intro fuel r r' pos buf hd flag hasher hfl hlt hrd
    have h1 : (flag &&& FEXTRA == 0) = false := by simp [hfl]
    simp [parseHeaderF, h1, hlt, hrd]
  · intro fuel r r' pos ex hd flag hasher hex hlt hrd
    simp [parseHeaderF, hex, hlt, hrd]
  · intro fuel r r' calced pos buf hd flag hasher hfl hlt hrd
    have h1 : (flag &&& FHCRC == 0) = false := by simp [hfl]
    simp [parseHeaderF, h1, hlt, hrd]
  · intro fuel hd hasher acc hacc
    constructor <;>
      simp [parseHeaderF, FNAME, FCOMMENT, FHCRC, hacc, readUntilNul, Reader.weight,
        Reader.read, show (8 : Nat) &&& 16 = 0 from rfl, show (8 : Nat) &&& 2 = 0 from rfl]
  · intro fuel hd hasher acc hacc
    constructor <;>
      simp [parseHeaderF, FCOMMENT, FHCRC, hacc, readUntilNul, Reader.weight,
        Reader.read, show (16 : Nat) &&& 16 = 16 from rfl, show (16 : Nat) &&& 2 = 0 from rfl]

/-- C3 amended, witness: a 0-byte read while the 10-byte fixed header is
still being filled yields `UnexpectedEof`. -/
theorem C3_witness :
    (parseHeaderF 1 [] (.header 0 (List.replicate 10 0)) GzHeader.default 0 CRCINIT).res =
      .error .unexpectedEof :=
  C3_amended.1 0 [] [] 0 (List.replicate 10 0) GzHeader.default 0 CRCINIT (by decide) rfl

/-- C8 counterexample: construct lazily over input with a bad magic
number; the first read reports the fatal header error and moves to the
terminal state — where `header()` returns `Some` (the default header)
although header parsing never succeeded. -/
theorem C8_counterexample :
    (decReadF storedEngine 20 (GzDecoder.new2 storedEngine [.data [0, 0, 8, 0, 0, 0, 0, 0, 0, 0]])
      8).map (fun p => (p.1, p.2.inner, p.2.headerOption)) =
    some (.error .invalidHeader, .end_, some GzHeader.default) := rfl

/-- C8 amended: `header()` returns none exactly in the parsing and `Err`
states; in every other state — including the terminal `End` state reached
after a fatal error was reported — it returns `Some` of the stored
header, whether or not parsing ever succeeded. -/
theorem C8_headerOption_iff {σ : Type} (d : GzDecoder σ) :
    d.headerOption = none ↔ (∃ p, d.inner = .header p) ∨ (∃ e, d.inner = .err e) := by
  unfold GzDecoder.headerOption
  cases h : d.inner <;> simp [h]

/-- C1: for every byte sequence `P` (bytes below 256, fewer than 2^32 of
them — a bound inherited from the modelled block format's 4-byte length
prefix) and every supported compression level, reading `GzEncoder` to end
of stream over `P` and decoding the resulting bytes with `GzDecoder`
yields exactly `P`. -/
theorem C1_roundtrip (P : List Nat) (lvl : Nat) (hB : ∀ b ∈ P, b < 256)
    (hL : P.length < 4294967296) (hlvl : lvl ≤ 9) :
    (encodeAll lvl P).bind
      (fun r => match r with | .ok s => decodeAll s | .error e => some (.error e)) =
      some (.ok P) := by
  rw [encodeAll_eq lvl P hB hL]
  exact decodeAll_eq P hB hL

/-- C1 witness: the round trip at a concrete input and level. -/
theorem C1_witness :
    (encodeAll 6 [104, 105]).bind
      (fun r => match r with | .ok s => decodeAll s | .error e => some (.error e)) =
      some (.ok [104, 105]) :=
  C1_roundtrip [104, 105] 6 (by decide) (by decide) (by decide)

/-- C4: in the trailer state the decoder fills the 8-byte buffer straight
from the underlying reader (the DEFLATE engine state is untouched); a
0-byte read yields `UnexpectedEof` with a transition to the terminal
state; once full, the little-endian stored CRC-32/ISIZE are compared with
the CRC wrapper's checksum and count and a mismatch of either yields the
corrupt error with a transition to the terminal state; on a match with
multi-member disabled the decoder transitions to `End` (where reads
return 0). -/
theorem C4_trailer_parsing {σ : Type} (eng : InfEngine σ) (d : GzDecoder σ)
    (pos : Nat) (buf : List Nat) (cap : Nat) (h : d.inner = .finished pos buf) :
    ((∀ r', pos < buf.length → Reader.read d.r (buf.length - pos) = (.ok [], r') →
      decStep eng d cap = .ret (.error .unexpectedEof) { d with inner := .end_, r := r' }) ∧
     (∀ c cs r', pos < buf.length →
      Reader.read d.r (buf.length - pos) = (.ok (c :: cs), r') →
      decStep eng d cap =
        .cont { d with
                inner := .finished (pos + (c :: cs).length) (writeAt buf pos (c :: cs))
                r := r' })) ∧
    (buf.length ≤ pos →
      ((finish buf).1 ≠ crcFinalize d.dcrc ∨ (finish buf).2 ≠ d.damt →
        decStep eng d cap = .ret (.error .corrupt) { d with inner := .end_ }) ∧
      ((finish buf).1 = crcFinalize d.dcrc → (finish buf).2 = d.damt → d.multi = false →
        decStep eng d cap = .cont { d with inner := .end_ })) ∧
    (∀ d2 : GzDecoder σ, d2.inner = .end_ → decStep eng d2 cap = .ret (.ok []) d2) := by
  refine ⟨⟨?_, ?_⟩, ?_, ?_⟩
  · intro r' hlt hrd
    simp [decStep, h, hlt, hrd]
  · intro c cs r' hlt hrd
    simp [decStep, h, hlt, hrd]
  · intro hge
    have hlt : ¬ pos < buf.length := by omega
    constructor
    · intro hmis
      by_cases hcq : (finish buf).1 = crcFinalize d.dcrc
      · have ha : (finish buf).2 ≠ d.damt := by tauto
        simp [decStep, h, hlt, hcq, ha]
      · simp [decStep, h, hlt, hcq]
    · intro hcq ha hm
      simp [decStep, h, hlt, hcq, ha, hm]
  · intro d2 h2
    simp [decStep, h2]

/-- C4 witness: a decoder two bytes into the trailer hits a 0-byte read
and fails with `UnexpectedEof`, transitioning to the terminal state. -/
theorem C4_witness :
    decStep storedEngine
      { inner := .finished 2 [1, 2, 0, 0, 0, 0, 0, 0], header := GzHeader.default, dcrc := 0,
        damt := 0, dstate := infInit, r := [], multi := false } 4 =
    .ret (.error .unexpectedEof)
      { inner := .end_, header := GzHeader.default, dcrc := 0,
        damt := 0, dstate := infInit, r := [], multi := false } :=
  (C4_trailer_parsing storedEngine
    { inner := .finished 2 [1, 2, 0, 0, 0, 0, 0, 0], header := GzHeader.default, dcrc := 0,
      damt := 0, dstate := infInit, r := [], multi := false }
    2 [1, 2, 0, 0, 0, 0, 0, 0] 4 rfl).1.1 [] (by decide) rfl

/-- C5: with multi-member decoding enabled, after a validated trailer the
decoder peeks the underlying reader with `fill_buf`: an empty buffer
transitions to `End` (a clean end, not an error); a non-empty buffer
resets the DEFLATE engine and the CRC counter, clears the header to its
default, and re-enters a fresh header-parsing state, consuming nothing. -/
theorem C5_multi_member_transition {σ : Type} (eng : InfEngine σ) (d : GzDecoder σ)
    (pos : Nat) (buf : List Nat) (cap : Nat) (h : d.inner = .finished pos buf)
    (hfull : buf.length ≤ pos) (hcrc : (finish buf).1 = crcFinalize d.dcrc)
    (hamt : (finish buf).2 = d.damt) (hm : d.multi = true) :
    (∀ r', Reader.fillBuf d.r = (.ok [], r') →
      decStep eng d cap = .cont { d with inner := .end_, r := r' }) ∧
    (∀ c cs r', Reader.fillBuf d.r = (.ok (c :: cs), r') →
      decStep eng d cap =
        .cont { d with
                inner := .header ⟨initHeaderState, 0, CRCINIT⟩
                header := GzHeader.default
                dcrc := CRCINIT
                damt := 0
                dstate := eng.reset d.dstate
                r := r' }) := by
  have hlt : ¬ pos < buf.length := by omega
  constructor
  · intro r' hfb
    simp [decStep, h, hlt, hcrc, hamt, hm, hfb]
  · intro c cs r' hfb
    simp [decStep, h, hlt, hcrc, hamt, hm, hfb]

/-- C5 witness: after a validated all-zero trailer (fresh CRC state, zero
count) with more buffered input available, the decoder resets and
re-enters header parsing. -/
theorem C5_witness :
    decStep storedEngine
      { inner := .finished 8 (le32enc 0 ++ le32enc 0), header := GzHeader.default,
        dcrc := CRCINIT, damt := 0, dstate := .done, r := [.data [31]], multi := true } 4 =
    .cont
      { inner := .header ⟨initHeaderState, 0, CRCINIT⟩, header := GzHeader.default,
        dcrc := CRCINIT, damt := 0, dstate := infInit, r := [.data [31]], multi := true } :=
  (C5_multi_member_transition storedEngine _ 8 (le32enc 0 ++ le32enc 0) 4 rfl (by decide)
    (by decide) (by decide) rfl).2 31 [] [.data [31]] rfl

/-- C6 counterexample: a non-would-block error surfaced from the body
read (`reader.read(into)?`) is *not* sticky: it is returned with the
decoder still in the `Body` state, and the very next read succeeds and
returns decompressed data instead of `Ok(0)`. -/
theorem C6_counterexample :
    (decReadF storedEngine 20 (GzDecoder.new storedEngine c6Reader) 8).map
      (fun p => (p.1, p.2.inner)) = some (.error (.custom 0), .body) ∧
    ((decReadF storedEngine 20 (GzDecoder.new storedEngine c6Reader) 8).bind
      (fun p => decReadF storedEngine 20 p.2 8)).map (fun p => p.1) = some (.ok [97]) :=
  ⟨rfl, rfl⟩

/-- C6 amended: a stored fatal error is reported exactly once, with a
transition to the terminal `End` state, where every read returns `Ok(0)`;
moreover every non-would-block error returned by one step of `read`
either was surfaced from the `Body` read (leaving the state at `Body`,
not sticky) or leaves the decoder in the terminal `End` state. -/
theorem C6_amended {σ : Type} (eng : InfEngine σ) :
    (∀ (d : GzDecoder σ) (e : IOError) (cap : Nat), d.inner = .err e →
      decStep eng d cap = .ret (.error e) { d with inner := .end_ }) ∧
    (∀ (d : GzDecoder σ) (cap : Nat), d.inner = .end_ → decStep eng d cap = .ret (.ok []) d) ∧
    (∀ (d d' : GzDecoder σ) (e : IOError) (cap : Nat),
      decStep eng d cap = .ret (.error e) d' → e ≠ .wouldBlock →
      d.inner = .body ∨ d'.inner = .end_) := by
  refine ⟨?_, ?_, ?_⟩
  · intro d e cap h
    simp [decStep, h]
  · intro d cap h
    simp [decStep, h]
  · intro d d' e cap hstep hwb
    cases hd : d.inner with
    | body => exact Or.inl rfl
    | end_ =>
      simp [decStep, hd] at hstep
    | err e2 =>
      right
      simp only [decStep, hd, StepRes.ret.injEq] at hstep
      rw [← hstep.2]
    | header p =>
      right
      simp only [decStep, hd] at hstep
      rcases hres : (parseHeaderF (parseFuel d.r) d.r p.state d.header p.flag p.hasher).res with
        e2 | u
      · rw [hres] at hstep
        by_cases he2 : e2 = .wouldBlock
        · subst he2
          simp only [beq_self_eq_true, if_true, StepRes.ret.injEq, Except.error.injEq] at hstep
          exact absurd hstep.1.symm hwb
        · have hbeq : (e2 == IOError.wouldBlock) = false := by simp [he2]
          simp only [hbeq, Bool.false_eq_true, if_false, StepRes.ret.injEq] at hstep
          rw [← hstep.2]
      · rw [hres] at hstep
        simp at hstep
    | finished pos buf =>
      right
      simp only [decStep, hd] at hstep
      by_cases hlt : pos < buf.length
      · rw [if_pos hlt] at hstep
        rcases hrd : Reader.read d.r (buf.length - pos) with ⟨res, r'⟩
        rcases res with e2 | chunk
        · rw [hrd] at hstep
          by_cases he2 : e2 = .wouldBlock
          · subst he2
            simp only [beq_self_eq_true, if_true, StepRes.ret.injEq, Except.error.injEq] at hstep
            exact absurd hstep.1.symm hwb
          · have hbeq : (e2 == IOError.wouldBlock) = false := by simp [he2]
            simp only [hbeq, Bool.false_eq_true, if_false, StepRes.ret.injEq] at hstep
            rw [← hstep.2]
        · rcases chunk with _ | ⟨c, cs⟩
          · rw [hrd] at hstep
            simp only [StepRes.ret.injEq] at hstep
            rw [← hstep.2]
          · rw [hrd] at hstep
            simp at hstep
      · rw [if_neg hlt] at hstep
        by_cases hcq : ((finish buf).1 != crcFinalize d.dcrc) = true
        · simp only [hcq, if_true, StepRes.ret.injEq] at hstep
          rw [← hstep.2]
        · simp only [Bool.not_eq_true] at hcq
          simp only [hcq, Bool.false_eq_true, if_false] at hstep
          by_cases ha : ((finish buf).2 != d.damt) = true
          · simp only [ha, if_true, StepRes.ret.injEq] at hstep
            rw [← hstep.2]
          · simp only [Bool.not_eq_true] at ha
            simp only [ha, Bool.false_eq_true, if_false] at hstep
            by_cases hm : d.multi
            · simp only [hm, Bool.not_true, Bool.false_eq_true, if_false] at hstep
              rcases hfb : Reader.fillBuf d.r with ⟨resb, rb⟩
              rcases resb with e2 | bufc
              · rw [hfb] at hstep
                by_cases he2 : e2 = .wouldBlock
                · subst he2
                  simp only [beq_self_eq_true, if_true, StepRes.ret.injEq,
                    Except.error.injEq] at hstep
                  exact absurd hstep.1.symm hwb
                · have hbeq : (e2 == IOError.wouldBlock) = false := by simp [he2]
                  simp only [hbeq, Bool.false_eq_true, if_false, StepRes.ret.injEq] at hstep
                  rw [← hstep.2]
              · rw [hfb] at hstep
                rcases bufc with _ | ⟨b, bs⟩ <;> simp at hstep
            · simp only [Bool.not_eq_true] at hm
              simp only [hm, Bool.not_false, if_true] at hstep
              simp at hstep

/-- C6 amended witness: a stored fatal error is reported once and the
decoder lands in the terminal state. -/
theorem C6_witness :
    decStep storedEngine
      { inner := .err .corrupt, header := GzHeader.default, dcrc := 0, damt := 0,
        dstate := infInit, r := [], multi := false } 4 =
    .ret (.error .corrupt)
      { inner := .end_, header := GzHeader.default, dcrc := 0, damt := 0,
        dstate := infInit, r := [], multi := false } :=
  (C6_amended storedEngine).1 _ .corrupt 4 rfl

/-- C7 counterexample: a decoder constructed eagerly (`new`) over a
reader that reports would-block once and then delivers a full valid
member stores the would-block as a constructor error: the first read
reports it and transitions to the terminal state, and an identical
subsequent read returns `Ok(0)` — the member that was available is lost
rather than resumed (the same bytes decode to `[97]`). -/
theorem C7_counterexample :
    (GzDecoder.new storedEngine c7Reader).inner = .err .wouldBlock ∧
    (decReadF storedEngine 20 (GzDecoder.new storedEngine c7Reader) 8).map
      (fun p => (p.1, p.2.inner)) = some (.error .wouldBlock, .end_) ∧
    ((decReadF storedEngine 20 (GzDecoder.new storedEngine c7Reader) 8).bind
      (fun p => decReadF storedEngine 20 p.2 8)).map (fun p => (p.1, p.2.inner)) =
      some (.ok [], .end_) ∧
    decodeAll c7Stream = some (.ok [97]) :=
  ⟨rfl, rfl, rfl, rfl⟩

/-- C7 amended: during `read`, a would-block from the underlying reader
is surfaced verbatim and is never sticky — in the header-parsing state
(any partially filled fixed buffer, and likewise the NUL-terminated
NAME/COMMENT scans, where the partially accumulated field is kept), the
body state, the trailer-filling state and the multi-member peek, the
member state and all accumulated parse progress are preserved exactly;
lazy construction (`new2`) touches no input.  Eager construction (`new`)
instead stores a would-block hit during construction as a one-shot
constructor error (see the counterexample). -/
theorem C7_would_block_not_sticky {σ : Type} (eng : InfEngine σ) :
    (∀ (d : GzDecoder σ) (p : HdrParse) (B : Reader) (cap : Nat),
      d.inner = .header p → d.r = .ioerr .wouldBlock :: B →
      fillingNow p.state d.header p.flag →
      decStep eng d cap = .ret (.error .wouldBlock) { d with inner := .header p, r := B }) ∧
    (∀ (d : GzDecoder σ) (cap : Nat) (s' : σ) (r' : Reader), d.inner = .body → cap ≠ 0 →
      eng.read d.dstate d.r cap = (.error .wouldBlock, s', r') →
      decStep eng d cap = .ret (.error .wouldBlock) { d with dstate := s', r := r' }) ∧
    (∀ (d : GzDecoder σ) (pos : Nat) (buf : List Nat) (B : Reader) (cap : Nat),
      d.inner = .finished pos buf → pos < buf.length → d.r = .ioerr .wouldBlock :: B →
      decStep eng d cap = .ret (.error .wouldBlock) { d with r := B }) ∧
    (∀ (d : GzDecoder σ) (pos : Nat) (buf : List Nat) (B : Reader) (cap : Nat),
      d.inner = .finished pos buf → buf.length ≤ pos →
      (finish buf).1 = crcFinalize d.dcrc → (finish buf).2 = d.damt → d.multi = true →
      d.r = .ioerr .wouldBlock :: B →
      decStep eng d cap = .ret (.error .wouldBlock) { d with r := B }) ∧
    (∀ (r : Reader), (GzDecoder.new2 eng r).r = r ∧
      (GzDecoder.new2 eng r).inner = .header ⟨initHeaderState, 0, CRCINIT⟩) ∧
    (∀ (d : GzDecoder σ) (p : HdrParse) (B : Reader) (cap : Nat),
      d.inner = .header p → p.state = .fileName → p.flag &&& FNAME ≠ 0 →
      d.r = .ioerr .wouldBlock :: B →
      decStep eng d cap = .ret (.error .wouldBlock)
        { d with
          inner := .header p
          header := { d.header with filename := some (d.header.filename.getD []) }
          r := B }) ∧
    (∀ (d : GzDecoder σ) (p : HdrParse) (B : Reader) (cap : Nat),
      d.inner = .header p → p.state = .comment → p.flag &&& FCOMMENT ≠ 0 →
      d.r = .ioerr .wouldBlock :: B →
      decStep eng d cap = .ret (.error .wouldBlock)
        { d with
          inner := .header p
          header := { d.header with comment := some (d.header.comment.getD []) }
          r := B }) := by
  refine ⟨?_, ?_, ?_, ?_, ?_, ?_, ?_⟩
  · intro d p B cap hd hr hf
    have hw : parseFuel (RdEvt.ioerr IOError.wouldBlock :: B) = (Reader.weight B + 16) + 1 := by
      simp [parseFuel, Reader.weight, RdEvt.w]
      omega
    simp only [decStep, hd, hr, hw,
      parse_error_event (Reader.weight B + 16) B .wouldBlock p.state d.header p.flag p.hasher hf,
      beq_self_eq_true, if_true]
  · intro d cap s' r' hd hcap hread
    have hc : (cap == 0) = false := by simp [hcap]
    simp [decStep, hd, hc, hread]
  · intro d pos buf B cap hd hlt hr
    simp [decStep, hd, hlt, hr, Reader.read]
  · intro d pos buf B cap hd hge hcrc hamt hm hr
    have hlt : ¬ pos < buf.length := by omega
    simp [decStep, hd, hlt, hcrc, hamt, hm, hr, Reader.fillBuf]
  · intro r
    exact ⟨rfl, rfl⟩
  · intro d p B cap hd hs hfl hr
    have hw : parseFuel (RdEvt.ioerr IOError.wouldBlock :: B) = (Reader.weight B + 16) + 1 := by
      simp [parseFuel, Reader.weight, RdEvt.w]
      omega
    simp only [decStep, hd, hr, hs, hw,
      parse_error_event_name (Reader.weight B + 16) B .wouldBlock d.header p.flag p.hasher hfl,
      beq_self_eq_true, if_true]
    rw [← hs]
  · intro d p B cap hd hs hfl hr
    have hw : parseFuel (RdEvt.ioerr IOError.wouldBlock :: B) = (Reader.weight B + 16) + 1 := by
      simp [parseFuel, Reader.weight, RdEvt.w]
      omega
    simp only [decStep, hd, hr, hs, hw,
      parse_error_event_comment (Reader.weight B + 16) B .wouldBlock d.header p.flag p.hasher hfl,
      beq_self_eq_true, if_true]
    rw [← hs]

/-- C7 amended witness: a would-block while filling the trailer is
surfaced with the trailer progress intact. -/
theorem C7_witness :
    decStep storedEngine
      { inner := .finished 3 [9, 9, 9, 0, 0, 0, 0, 0], header := GzHeader.default, dcrc := 0,
        damt := 0, dstate := infInit, r := [.ioerr .wouldBlock, .data [1]], multi := false } 4 =
    .ret (.error .wouldBlock)
      { inner := .finished 3 [9, 9, 9, 0, 0, 0, 0, 0], header := GzHeader.default, dcrc := 0,
        damt := 0, dstate := infInit, r := [.data [1]], multi := false } :=
  (C7_would_block_not_sticky storedEngine).2.2.1
    { inner := .finished 3 [9, 9, 9, 0, 0, 0, 0, 0], header := GzHeader.default, dcrc := 0,
      damt := 0, dstate := infInit, r := [.ioerr .wouldBlock, .data [1]], multi := false }
    3 [9, 9, 9, 0, 0, 0, 0, 0] [.data [1]] 4 rfl (by decide) rfl

/-- C9: `GzEncoder::read` first copies pending header bytes into dst (and
returns at once if dst is filled by them); otherwise, if the DEFLATE
engine then yields `n > 0` bytes the call returns `header_copied + n`; if
the engine yields 0 it sets `eof`, resets `pos` to 0 and returns
`read_footer` on the remaining slice; and once the 8 trailer bytes have
been delivered (`eof` with `pos = 8`) every subsequent read returns
`Ok(0)` with the state unchanged, indefinitely. -/
theorem C9_encoder_read {σ : Type}
    (engRead : σ → CrcReader → Nat → Except IOError (List Nat) × σ × CrcReader)
    (e : GzEncoder σ) (cap : Nat) :
    (e.eof = false → e.pos < e.header.length → min cap (e.header.length - e.pos) = cap →
      gzEncRead engRead e cap =
        (.ok (cap, (e.header.drop e.pos).take cap), { e with pos := e.pos + cap })) ∧
    (e.eof = false → e.pos < e.header.length →
      ∀ n, n = min cap (e.header.length - e.pos) → n ≠ cap →
      (∀ c cs s' c', engRead e.defl e.crcr (cap - n) = (.ok (c :: cs), s', c') →
        gzEncRead engRead e cap =
          (.ok (n + (c :: cs).length, (e.header.drop e.pos).take n ++ (c :: cs)),
           { e with pos := e.pos + n, defl := s', crcr := c' })) ∧
      (∀ s' c', engRead e.defl e.crcr (cap - n) = (.ok [], s', c') →
        gzEncRead engRead e cap =
          (.ok ((read_footer { e with defl := s', crcr := c', eof := true, pos := 0 }
                  (cap - n)).1.1,
                (e.header.drop e.pos).take n ++
                  (read_footer { e with defl := s', crcr := c', eof := true, pos := 0 }
                    (cap - n)).1.2),
           (read_footer { e with defl := s', crcr := c', eof := true, pos := 0 }
             (cap - n)).2))) ∧
    (e.eof = true → e.pos = 8 → ∀ cap2, gzEncRead engRead e cap2 = (.ok (0, []), e)) := by
  refine ⟨?_, ?_, ?_⟩
  · intro heof hpos hmin
    simp [gzEncRead, heof, hpos, hmin]
  · intro heof hpos n hn hne
    constructor
    · intro c cs s' c' heng
      have hc : (n == cap) = false := by simp [hne]
      simp [gzEncRead, heof, hpos, ← hn, hc, heng]
    · intro s' c' heng
      have hc : (n == cap) = false := by simp [hne]
      simp [gzEncRead, heof, hpos, ← hn, hc, heng]
  · intro heof hp8 cap2
    simp [gzEncRead, heof, read_footer, hp8]

/-- C9 witness: the encoder with the full trailer already delivered
returns `Ok(0)` and leaves its state unchanged. -/
theorem C9_witness :
    gzEncRead (storedEncRead 6)
      { defl := .finished, crcr := { inner := [] }, header := mkHeaderBytes, pos := 8,
        eof := true } 10 =
    (.ok (0, []),
     { defl := .finished, crcr := { inner := [] }, header := mkHeaderBytes, pos := 8,
       eof := true }) :=
  (C9_encoder_read (storedEncRead 6)
    { defl := .finished, crcr := { inner := [] }, header := mkHeaderBytes, pos := 8,
      eof := true } 0).2.2 rfl rfl 10

/-- C10: once the decoder is in the terminal `End` state, every read
returns `Ok(0)` immediately and leaves the whole decoder — in particular
the underlying reader and the stored header — unchanged. -/
theorem C10_end_state_reads_zero {σ : Type} (eng : InfEngine σ) (fuel cap : Nat)
    (d : GzDecoder σ) (h : d.inner = .end_) :
    decReadF eng (fuel + 1) d cap = some (.ok [], d) := by
  simp [decReadF, decStep, h]

/-- C10 witness. -/
theorem C10_witness :
    decReadF storedEngine 5
      { inner := .end_, header := GzHeader.default, dcrc := 0, damt := 0, dstate := infInit,
        r := [.data [1, 2, 3]], multi := false } 7 =
    some (.ok [],
      { inner := .end_, header := GzHeader.default, dcrc := 0, damt := 0, dstate := infInit,
        r := [.data [1, 2, 3]], multi := false }) :=
  C10_end_state_reads_zero storedEngine 4 7 _ rfl

end Flate2
